import Mathlib

/-!
Verification of the quadtree package (quadtree.go).

Shallow embedding conventions:
* `float64` is modelled by `ℚ` (exact arithmetic; all the code does with
  coordinates is compare, add, subtract, multiply and halve them).
* An `Object` is identified by a `Nat` id (Go identity equality of pointers);
  the position stored inside the object (`Handle.pos`, read through
  `getCurrentPosition` and written through `setPosition`) is modelled by an
  external map `p : Nat → Twof` that the operations thread explicitly.
* The Go struct `quadtree` keeps a `hasChildren` flag next to nilable child
  pointers and keeps them in sync (children are non-nil exactly when
  `hasChildren` is set), so the embedding merges them into two constructors:
  `leaf` (hasChildren = false) and `node` (hasChildren = true, four children
  in the order children[0][0], children[0][1], children[1][0], children[1][1]).
* `log.Panicln` aborts the process; fallible operations therefore return
  `Option`, with `none` for a panic.
* `add` is not structurally recursive (a split refiles objects into freshly
  created children, which may themselves split), so it takes a fuel argument;
  the public entry points use `rootFuel` and a lemma shows this fuel is always
  sufficient on depth-consistent trees.
* `destroyChildren` follows the order of the source exactly: the objects
  field is overwritten with an empty slice before collectObjects reads it,
  so collapsing a childless node drops its object list (only the expansion
  path reaches this case; the collapse in remove is guarded by hasChildren).
-/

/-- Twof is the two dimensional position type ([2]float64 in the source). -/
abbrev Twof : Type := ℚ × ℚ

/-- Constant maxQuadtreeDepth = 8 from the source. -/
def maxQuadtreeDepth : Nat := 8

/-- Constant minObjectsPerQuadtree = 5 from the source. -/
def minObjectsPerQuadtree : Int := 5

/-- Constant maxObjectsPerQuadtree = 10 from the source. -/
def maxObjectsPerQuadtree : Int := 10

/-- Constant expandFactor = 1.3 from the source. -/
def expandFactor : ℚ := 13 / 10

/-- computeDist2: squared distance between two points. -/
def computeDist2 (f t : Twof) : ℚ :=
  (f.1 - t.1) * (f.1 - t.1) + (f.2 - t.2) * (f.2 - t.2)

/-- The struct quadtree. `leaf` is a node with hasChildren = false (objects
list in use), `node` has hasChildren = true with children in the order
children[0][0], children[0][1], children[1][0], children[1][1].
Field order: depth, numObjects, corner1, corner2, center, (children,) objects. -/
inductive QT : Type where
  | leaf (depth : Nat) (numObjects : Int) (corner1 corner2 center : Twof)
      (objects : List Nat)
  | node (depth : Nat) (numObjects : Int) (corner1 corner2 center : Twof)
      (q00 q01 q10 q11 : QT) (objects : List Nat)
deriving DecidableEq

/-- Field accessor for depth. -/
def QT.depth : QT → Nat
  | .leaf d _ _ _ _ _ => d
  | .node d _ _ _ _ _ _ _ _ _ => d

/-- Field accessor for numObjects. -/
def QT.numObjects : QT → Int
  | .leaf _ n _ _ _ _ => n
  | .node _ n _ _ _ _ _ _ _ _ => n

/-- Field accessor for corner1. -/
def QT.corner1 : QT → Twof
  | .leaf _ _ c1 _ _ _ => c1
  | .node _ _ c1 _ _ _ _ _ _ _ => c1

/-- Field accessor for corner2. -/
def QT.corner2 : QT → Twof
  | .leaf _ _ _ c2 _ _ => c2
  | .node _ _ _ c2 _ _ _ _ _ _ => c2

/-- Field accessor for center. -/
def QT.center : QT → Twof
  | .leaf _ _ _ _ c _ => c
  | .node _ _ _ _ c _ _ _ _ _ => c

/-- Field accessor for the objects list. -/
def QT.objects : QT → List Nat
  | .leaf _ _ _ _ _ os => os
  | .node _ _ _ _ _ _ _ _ _ os => os

/-- The hasChildren flag. -/
def QT.hasChildren : QT → Bool
  | .leaf _ _ _ _ _ _ => false
  | .node _ _ _ _ _ _ _ _ _ _ => true

/-- init: sets corners, center = midpoint, depth; zero count, no children. -/
def initQT (c1 c2 : Twof) (depth : Nat) : QT :=
  .leaf depth 0 c1 c2 ((c1.1 + c2.1) / 2, (c1.2 + c2.2) / 2) []

/-- MakeQuadtree creates a quadtree with depth 0. -/
def MakeQuadtree (c1 c2 : Twof) : QT := initQT c1 c2 0

/-- Empty returns true if the quadtree is empty (numObjects = 0, no
children, empty object list). -/
def QT.Empty (t : QT) : Bool :=
  t.numObjects == 0 && !t.hasChildren && t.objects.length == 0

/-- collectObjects: appends all objects in this node or its descendants,
children visited in the order [0][0], [0][1], [1][0], [1][1]. -/
def collectObjects : QT → List Nat
  | .leaf _ _ _ _ _ os => os
  | .node _ _ _ _ _ a b c d _ =>
      collectObjects a ++ collectObjects b ++ collectObjects c ++ collectObjects d

/-- destroyChildren: the source first reassigns the objects field to a
fresh empty slice and only then calls collectObjects on itself with a
pointer to that field. On a node with children, collectObjects never reads
the own objects field of the node, so the children contents are gathered as
intended; on a childless node, collectObjects appends the objects field,
which at that point is already the fresh empty slice, so the previous list
is dropped. The result is a childless node; corners, center, depth and
numObjects are unchanged. -/
def destroyChildren : QT → QT
  | .leaf d n c1 c2 ctr _ => .leaf d n c1 c2 ctr []
  | .node d n c1 c2 ctr a b c dd _ =>
      .leaf d n c1 c2 ctr
        (collectObjects a ++ collectObjects b ++ collectObjects c ++ collectObjects dd)

/-- Assignment of the two corner fields, leaving every other field as it
is. -/
def setCorners (t : QT) (nc1 nc2 : Twof) : QT :=
  match t with
  | .leaf d n _ _ ctr objs => .leaf d n nc1 nc2 ctr objs
  | .node d n _ _ ctr a b c dd objs => .node d n nc1 nc2 ctr a b c dd objs

/-- checkExpand: if the position is outside the bounding box on some axis,
compute expanded corners, collapse the tree via destroyChildren and adopt
the new corners. The cached center is not recomputed (as in the source). -/
def checkExpand (t : QT) (tf : Twof) : QT :=
  let changed :=
    tf.1 < t.corner1.1 ∨ tf.2 < t.corner1.2 ∨ tf.1 > t.corner2.1 ∨ tf.2 > t.corner2.2
  let newCorner1 : Twof :=
    ((if tf.1 < t.corner1.1 then t.corner2.1 - (t.corner2.1 - tf.1) * expandFactor
      else t.corner1.1),
     (if tf.2 < t.corner1.2 then t.corner2.2 - (t.corner2.2 - tf.2) * expandFactor
      else t.corner1.2))
  let newCorner2 : Twof :=
    ((if tf.1 > t.corner2.1 then t.corner1.1 + (tf.1 - t.corner1.1) * expandFactor
      else t.corner2.1),
     (if tf.2 > t.corner2.2 then t.corner1.2 + (tf.2 - t.corner1.2) * expandFactor
      else t.corner2.2))
  if changed then setCorners (destroyChildren t) newCorner1 newCorner2
  else t

/-- The quadrant-selection loop of fileObject: try (x, y) in the order
(0,0), (0,1), (1,0), (1,1); skip x = 0 when c[0] > center[0], skip x = 1
when c[0] < center[0], and likewise for y; the first pair passing both
guards is used. `false` stands for index 0, `true` for index 1. -/
def fileTarget (c center : Twof) : Option (Bool × Bool) :=
  [(false, false), (false, true), (true, false), (true, true)].find?
    (fun q =>
      (if q.1 then !decide (c.1 < center.1) else !decide (c.1 > center.1)) &&
      (if q.2 then !decide (c.2 < center.2) else !decide (c.2 > center.2)))

/-- The quadrant-selection loop of testPresent, written separately in the
source with the same guards as the loop in fileObject. -/
def presentTarget (pos center : Twof) : Option (Bool × Bool) :=
  [(false, false), (false, true), (true, false), (true, true)].find?
    (fun q =>
      (if q.1 then !decide (pos.1 < center.1) else !decide (pos.1 > center.1)) &&
      (if q.2 then !decide (pos.2 < center.2) else !decide (pos.2 > center.2)))

/-- fileObject with add = true: route object `o` (at position `p o`) to the
child selected by the loop and apply `adder` there. When no quadrant is
selected the loops fall through and the children are returned unchanged
(the source function returns without filing). -/
def fileObjectAdd (adder : QT → Nat → Option QT) (p : Nat → Twof) (center : Twof)
    (a b c d : QT) (o : Nat) : Option (QT × QT × QT × QT) :=
  match fileTarget (p o) center with
  | some (false, false) => (adder a o).map (fun x => (x, b, c, d))
  | some (false, true) => (adder b o).map (fun x => (a, x, c, d))
  | some (true, false) => (adder c o).map (fun x => (a, b, x, d))
  | some (true, true) => (adder d o).map (fun x => (a, b, c, x))
  | none => some (a, b, c, d)

/-- The filing loop of makeChildren: file every object of the list into the
children, in list order. -/
def fileList (adder : QT → Nat → Option QT) (p : Nat → Twof) (center : Twof)
    (a b c d : QT) : List Nat → Option (QT × QT × QT × QT)
  | [] => some (a, b, c, d)
  | o :: rest =>
      match fileObjectAdd adder p center a b c d o with
      | some (a1, b1, c1, d1) => fileList adder p center a1 b1 c1 d1 rest
      | none => none

/-- The four fresh children built by makeChildren: child [x][y] spans from
(minX, minY) to (maxX, maxY) where the x-range is [corner1.x, center.x] for
x = 0 and [center.x, corner2.x] for x = 1, and likewise for y; each child is
created at depth + 1 with its own midpoint center. -/
def makeKids (c1 c2 ctr : Twof) (depth : Nat) : QT × QT × QT × QT :=
  (initQT (c1.1, c1.2) (ctr.1, ctr.2) (depth + 1),
   initQT (c1.1, ctr.2) (ctr.1, c2.2) (depth + 1),
   initQT (ctr.1, c1.2) (c2.1, ctr.2) (depth + 1),
   initQT (ctr.1, ctr.2) (c2.1, c2.2) (depth + 1))

/-- add: increments numObjects; a leaf whose depth allows it and whose new
count exceeds maxObjectsPerQuadtree first splits (makeChildren: create four
children, refile the stored objects, clear the list) and then files the new
object; a node files the new object into the selected child; otherwise the
object is appended to the leaf list. `fuel` bounds the recursion depth;
`none` means the fuel ran out (it never does from the public entry points). -/
def addF (p : Nat → Twof) : Nat → QT → Nat → Option QT
  | 0, _, _ => none
  | fuel + 1, .leaf depth n c1 c2 ctr objs, o =>
      let n1 := n + 1
      if depth < maxQuadtreeDepth ∧ n1 > maxObjectsPerQuadtree then
        match makeKids c1 c2 ctr depth with
        | (a, b, c, d) =>
          match fileList (addF p fuel) p ctr a b c d objs with
          | some (a1, b1, c1x, d1) =>
              match fileObjectAdd (addF p fuel) p ctr a1 b1 c1x d1 o with
              | some (a2, b2, c2x, d2) =>
                  some (.node depth n1 c1 c2 ctr a2 b2 c2x d2 [])
              | none => none
          | none => none
      else some (.leaf depth n1 c1 c2 ctr (objs ++ [o]))
  | fuel + 1, .node depth n c1 c2 ctr a b c d objs, o =>
      match fileObjectAdd (addF p fuel) p ctr a b c d o with
      | some (a1, b1, c1x, d1) =>
          some (.node depth (n + 1) c1 c2 ctr a1 b1 c1x d1 objs)
      | none => none

/-- The swap-removal of the first occurrence of `o` in a leaf list: the
element is overwritten by the last element and the list is truncated (or
just truncated when it is itself last); `none` when `o` is not found
(the source panics there). First, the index search loop. -/
def findIdx (o : Nat) : List Nat → Option Nat
  | [] => none
  | x :: xs => if x = o then some 0 else (findIdx o xs).map (· + 1)

/-- The leaf-list removal of the remove source: locate `o`, then move the
last element into its slot and truncate. -/
def swapRemove (objs : List Nat) (o : Nat) : Option (List Nat) :=
  match findIdx o objs with
  | none => none
  | some i =>
      let last := objs.length - 1
      if i = last then some (objs.take last)
      else some ((objs.set i (objs.getD last 0)).take last)

/-- remove: decrements numObjects, panics (`none`) if it would go negative;
a node whose new count fell below minObjectsPerQuadtree collapses via
destroyChildren and then removes from the (now leaf) list; a remaining node
routes the removal into the selected child; a leaf removes from its list,
panicking (`none`) when the object is not found. -/
def removeQ (p : Nat → Twof) : QT → Nat → Option QT
  | .leaf depth n c1 c2 ctr objs, o =>
      let n1 := n - 1
      if n1 < 0 then none
      else
        match swapRemove objs o with
        | some objs1 => some (.leaf depth n1 c1 c2 ctr objs1)
        | none => none
  | .node depth n c1 c2 ctr a b c d objs, o =>
      let n1 := n - 1
      if n1 < 0 then none
      else if n1 < minObjectsPerQuadtree then
        match swapRemove (collectObjects (.node depth n c1 c2 ctr a b c d objs)) o with
        | some objs1 => some (.leaf depth n1 c1 c2 ctr objs1)
        | none => none
      else
        match fileTarget (p o) ctr with
        | some (false, false) =>
            (removeQ p a o).map (fun x => .node depth n1 c1 c2 ctr x b c d objs)
        | some (false, true) =>
            (removeQ p b o).map (fun x => .node depth n1 c1 c2 ctr a x c d objs)
        | some (true, false) =>
            (removeQ p c o).map (fun x => .node depth n1 c1 c2 ctr a b x d objs)
        | some (true, true) =>
            (removeQ p d o).map (fun x => .node depth n1 c1 c2 ctr a b c x objs)
        | none => some (.node depth n1 c1 c2 ctr a b c d objs)

/-- testPresent: in a leaf, scan the object list for `o`; in a node, recurse
into the child that `pos` routes to; `none` models the panic that fires when
no quadrant is selected. -/
def testPresent : QT → Nat → Twof → Option Bool
  | .leaf _ _ _ _ _ objs, o, _ => some (objs.contains o)
  | .node _ _ _ _ ctr a b c d _, o, pos =>
      match presentTarget pos ctr with
      | some (false, false) => testPresent a o pos
      | some (false, true) => testPresent b o pos
      | some (true, false) => testPresent c o pos
      | some (true, true) => testPresent d o pos
      | none => none

/-- findNearObjects: in a leaf, keep the objects whose squared distance to
pos is not greater than dist * dist; in a node, visit every child whose
quadrant is not pruned by the per-axis guards, in the order [0][0], [0][1],
[1][0], [1][1], appending the results. -/
def findNearObjects (p : Nat → Twof) (pos : Twof) (dist : ℚ) : QT → List Nat
  | .leaf _ _ _ _ _ objs =>
      objs.filter (fun o => !decide (computeDist2 pos (p o) > dist * dist))
  | .node _ _ _ _ ctr a b c d _ =>
      (if !decide (pos.1 - dist > ctr.1) && !decide (pos.2 - dist > ctr.2) then
        findNearObjects p pos dist a else []) ++
      (if !decide (pos.1 - dist > ctr.1) && !decide (pos.2 + dist < ctr.2) then
        findNearObjects p pos dist b else []) ++
      (if !decide (pos.1 + dist < ctr.1) && !decide (pos.2 - dist > ctr.2) then
        findNearObjects p pos dist c else []) ++
      (if !decide (pos.1 + dist < ctr.1) && !decide (pos.2 + dist < ctr.2) then
        findNearObjects p pos dist d else [])

/-- Position-map update: o.setPosition(c). -/
def updf (p : Nat → Twof) (o : Nat) (c : Twof) : Nat → Twof :=
  fun x => if x = o then c else p x

/-- Fuel used by the public entry points: one more than the depth limit, so
descending from the root (depth 0) past at most maxQuadtreeDepth split
levels never exhausts it. -/
def rootFuel : Nat := maxQuadtreeDepth + 1

/-- Add: o.setPosition(c), checkExpand(c), then add into the root. -/
def AddOp (t : QT) (p : Nat → Twof) (o : Nat) (c : Twof) : Option QT :=
  addF (updf p o c) rootFuel (checkExpand t c) o

/-- Move: when testPresent at the new position finds the object in place,
only the position is written (the tree is unchanged); otherwise remove at
the old position, set the position, checkExpand and add. The returned tree
is paired with the position map produced by the operation. -/
def MoveOp (t : QT) (p : Nat → Twof) (o : Nat) (tpos : Twof) : Option QT :=
  match testPresent t o tpos with
  | some true => some t
  | some false =>
      match removeQ p t o with
      | some t1 => addF (updf p o tpos) rootFuel (checkExpand t1 tpos) o
      | none => none
  | none => none

/-- The routing rule: per axis, the bit is 0 (false, lower quadrant) exactly
when the coordinate is not above the center coordinate, so ties go to the
lower quadrant. -/
def route (c ctr : Twof) : Bool × Bool := (decide (ctr.1 < c.1), decide (ctr.2 < c.2))

/-- Depth bookkeeping invariant: the stored depth field of the node equals
its real distance from the root, children of an internal node sit one level
below it, and internal nodes only exist above the depth limit (children are
only ever created when depth < maxQuadtreeDepth). -/
def goodDepth : Nat → QT → Prop
  | k, .leaf d _ _ _ _ _ => d = k ∧ k ≤ maxQuadtreeDepth
  | k, .node d _ _ _ _ a b c dd _ =>
      d = k ∧ k < maxQuadtreeDepth ∧ goodDepth (k + 1) a ∧ goodDepth (k + 1) b ∧
        goodDepth (k + 1) c ∧ goodDepth (k + 1) dd

/-- Count invariant: numObjects of a leaf equals the length of its object
list, numObjects of an internal node equals the sum of the counts of its four
children, recursively. -/
def countOK : QT → Prop
  | .leaf _ n _ _ _ objs => n = (objs.length : Int)
  | .node _ n _ _ _ a b c dd _ =>
      n = a.numObjects + b.numObjects + c.numObjects + dd.numObjects ∧
        countOK a ∧ countOK b ∧ countOK c ∧ countOK dd

/-- Routing invariant: every object stored in a child subtree of an internal
node routes to that child from the center of the node, recursively. -/
def routeOK (p : Nat → Twof) : QT → Prop
  | .leaf _ _ _ _ _ _ => True
  | .node _ _ _ _ ctr a b c dd _ =>
      (∀ o ∈ collectObjects a, route (p o) ctr = (false, false)) ∧
      (∀ o ∈ collectObjects b, route (p o) ctr = (false, true)) ∧
      (∀ o ∈ collectObjects c, route (p o) ctr = (true, false)) ∧
      (∀ o ∈ collectObjects dd, route (p o) ctr = (true, true)) ∧
      routeOK p a ∧ routeOK p b ∧ routeOK p c ∧ routeOK p dd

/-- The multiset of objects stored in the subtree (order-free view of
collectObjects, used for bookkeeping). -/
def collectM (t : QT) : Multiset Nat := (collectObjects t : Multiset Nat)

/-- The sublist of `l` routing to quadrant `q` from center `ctr`. -/
def routeFilter (p : Nat → Twof) (ctr : Twof) (q : Bool × Bool) (l : List Nat) : List Nat :=
  l.filter (fun x => decide (route (p x) ctr = q))

/-- Postcondition of `addF` on a tree with correct depth bookkeeping at
level `k`: the geometry fields are unchanged, the count went up by one, the
inserted object joined the subtree contents, and the depth, count and
routing invariants are preserved. -/
def addPost (p : Nat → Twof) (k : Nat) (o : Nat) (t t2 : QT) : Prop :=
  t2.depth = t.depth ∧ t2.corner1 = t.corner1 ∧ t2.corner2 = t.corner2 ∧
    t2.center = t.center ∧ t2.numObjects = t.numObjects + 1 ∧ goodDepth k t2 ∧
    collectM t2 = o ::ₘ collectM t ∧ (countOK t → countOK t2) ∧
    (routeOK p t → routeOK p t2)

/-- Postcondition of filing the list `fl` of objects into one tree: depth
bookkeeping still holds, the contents grew by exactly `fl`, the count grew
by its length, and the count and routing invariants are preserved. -/
def filePost (p : Nat → Twof) (k1 : Nat) (fl : List Nat) (t t2 : QT) : Prop :=
  goodDepth k1 t2 ∧ collectM t2 = (fl : Multiset Nat) + collectM t ∧
    t2.numObjects = t.numObjects + fl.length ∧
    (countOK t → countOK t2) ∧ (routeOK p t → routeOK p t2)

/-- The loop in fileObject selects exactly the quadrant given by the
routing rule. -/
theorem fileTarget_eq (c ctr : Twof) : fileTarget c ctr = some (route c ctr) := by
  rcases le_or_lt c.1 ctr.1 with h1 | h1 <;> rcases le_or_lt c.2 ctr.2 with h2 | h2
  · simp [fileTarget, route, List.find?, not_lt.mpr h1, not_lt.mpr h2]
  · simp [fileTarget, route, List.find?, not_lt.mpr h1, h2, h2.asymm]
  · simp [fileTarget, route, List.find?, h1, h1.asymm, not_lt.mpr h2]
  · simp [fileTarget, route, List.find?, h1, h1.asymm, h2, h2.asymm]

/-- The loop in testPresent selects exactly the quadrant given by the
routing rule. -/
theorem presentTarget_eq (c ctr : Twof) : presentTarget c ctr = some (route c ctr) := by
  rcases le_or_lt c.1 ctr.1 with h1 | h1 <;> rcases le_or_lt c.2 ctr.2 with h2 | h2
  · simp [presentTarget, route, List.find?, not_lt.mpr h1, not_lt.mpr h2]
  · simp [presentTarget, route, List.find?, not_lt.mpr h1, h2, h2.asymm]
  · simp [presentTarget, route, List.find?, h1, h1.asymm, not_lt.mpr h2]
  · simp [presentTarget, route, List.find?, h1, h1.asymm, h2, h2.asymm]

/-- The index-search loop of the leaf removal finds no index exactly when
the object is absent from the list. -/
theorem findIdx_eq_none {o : Nat} {l : List Nat} : findIdx o l = none ↔ o ∉ l := by
  induction l with
  | nil => simp [findIdx]
  | cons x xs ih =>
      by_cases hx : x = o
      · simp [findIdx, hx]
      · simp [findIdx, hx, ih, Ne.symm hx]

theorem findIdx_some_decomp {o : Nat} {l : List Nat} {i : Nat} (h : findIdx o l = some i) :
    ∃ A B, l = A ++ o :: B ∧ A.length = i ∧ o ∉ A := by
  induction l generalizing i with
  | nil => simp [findIdx] at h
  | cons x xs ih =>
      by_cases hx : x = o
      · subst hx
        simp [findIdx] at h
        exact ⟨[], xs, by simp, by simp [h], by simp⟩
      · simp [findIdx, hx] at h
        obtain ⟨j, hj, rfl⟩ := h
        obtain ⟨A, B, rfl, hlen, hnA⟩ := ih hj
        exact ⟨x :: A, B, by simp, by simp [hlen], by simp [hnA, Ne.symm hx]⟩

theorem set_append_length (A : List Nat) (x v : Nat) (C : List Nat) :
    (A ++ x :: C).set A.length v = A ++ v :: C := by
  induction A with
  | nil => rfl
  | cons a as ih => simp [List.set, ih]

theorem getD_concat (L : List Nat) (v : Nat) : (L ++ [v]).getD L.length 0 = v := by
  induction L with
  | nil => rfl
  | cons a as ih => simpa using ih

theorem findIdx_append (A B : List Nat) (o : Nat) (hnA : o ∉ A) :
    findIdx o (A ++ o :: B) = some A.length := by
  induction A with
  | nil => simp [findIdx]
  | cons a as ih =>
      have ha : a ≠ o := fun hh => hnA (by simp [hh])
      have hnas : o ∉ as := fun hh => hnA (by simp [hh])
      simp [findIdx, ha, ih hnas]

theorem swapRemove_last (A : List Nat) (o : Nat) (hnA : o ∉ A) :
    swapRemove (A ++ [o]) o = some A := by
  have h1 : findIdx o (A ++ [o]) = some A.length := findIdx_append A [] o hnA
  have hl : (A ++ [o]).length - 1 = A.length := by simp
  unfold swapRemove
  rw [h1]
  simp only [hl, if_pos rfl]
  simp [List.take_left]

theorem swapRemove_mid (A B0 : List Nat) (o v : Nat) (hnA : o ∉ A) :
    swapRemove (A ++ o :: (B0 ++ [v])) o = some (A ++ v :: B0) := by
  have h1 : findIdx o (A ++ o :: (B0 ++ [v])) = some A.length :=
    findIdx_append A (B0 ++ [v]) o hnA
  have hl : (A ++ o :: (B0 ++ [v])).length - 1 = A.length + (B0.length + 1) := by
    simp
  have hne : A.length ≠ A.length + (B0.length + 1) := by omega
  have hshape : A ++ o :: (B0 ++ [v]) = (A ++ o :: B0) ++ [v] := by simp
  have hlen2 : (A ++ o :: B0).length = A.length + (B0.length + 1) := by simp
  have hgd : (A ++ o :: (B0 ++ [v])).getD (A.length + (B0.length + 1)) 0 = v := by
    rw [hshape, ← hlen2]; exact getD_concat _ v
  have hset : (A ++ o :: (B0 ++ [v])).set A.length v = (A ++ v :: B0) ++ [v] := by
    rw [set_append_length A o v (B0 ++ [v])]; simp
  have hlen3 : (A ++ v :: B0).length = A.length + (B0.length + 1) := by simp
  unfold swapRemove
  rw [h1]
  simp only [hl, if_neg hne, hgd, hset]
  rw [← hlen3, List.take_left]

theorem swapRemove_eq_none {l : List Nat} {o : Nat} : swapRemove l o = none ↔ o ∉ l := by
  constructor
  · intro hnone hmem
    obtain ⟨i, hi⟩ : ∃ i, findIdx o l = some i := by
      cases hfi : findIdx o l with
      | none => exact absurd (findIdx_eq_none.mp hfi) (by simpa using hmem)
      | some i => exact ⟨i, rfl⟩
    simp only [swapRemove, hi] at hnone
    split at hnone <;> exact Option.noConfusion hnone
  · intro h
    unfold swapRemove
    rw [findIdx_eq_none.mpr h]

theorem swapRemove_perm {l : List Nat} {o : Nat} {l2 : List Nat}
    (h : swapRemove l o = some l2) : List.Perm l2 (l.erase o) := by
  obtain ⟨i, hfi⟩ : ∃ i, findIdx o l = some i := by
    cases hfi : findIdx o l with
    | none => simp [swapRemove, hfi] at h
    | some i => exact ⟨i, rfl⟩
  obtain ⟨A, B, rfl, hlen, hnA⟩ := findIdx_some_decomp hfi
  have herase : (A ++ o :: B).erase o = A ++ B := by
    rw [List.erase_append_right _ hnA, List.erase_cons_head]
  rcases List.eq_nil_or_concat B with rfl | ⟨B0, v, rfl⟩
  · rw [show A ++ o :: ([] : List Nat) = A ++ [o] by simp] at h
    rw [swapRemove_last A o hnA] at h
    cases h
    rw [herase]
    simp
  · simp only [List.concat_eq_append] at h herase ⊢
    rw [swapRemove_mid A B0 o v hnA] at h
    cases h
    rw [herase]
    exact List.Perm.append_left A (List.perm_append_singleton v B0).symm

/-- A tree with correct depth bookkeeping at level k sits at level at most
maxQuadtreeDepth. -/
theorem goodDepth_le {k : Nat} {t : QT} (h : goodDepth k t) : k ≤ maxQuadtreeDepth := by
  cases t with
  | leaf d n c1 c2 ctr objs => exact h.2
  | node d n c1 c2 ctr a b c dd objs => exact le_of_lt h.2.1

/-- collectM of an internal node is the sum over the children. -/
theorem collectM_node (d : Nat) (n : Int) (c1 c2 ctr : Twof) (a b c dd : QT)
    (objs : List Nat) :
    collectM (.node d n c1 c2 ctr a b c dd objs) =
      collectM a + collectM b + collectM c + collectM dd := by
  simp [collectM, collectObjects]

/-- collectM of a leaf is its object list. -/
theorem collectM_leaf (d : Nat) (n : Int) (c1 c2 ctr : Twof) (objs : List Nat) :
    collectM (.leaf d n c1 c2 ctr objs) = (objs : Multiset Nat) := rfl

/-- Membership in the collected list and in the collected multiset agree. -/
theorem mem_collectM {x : Nat} {t : QT} : x ∈ collectM t ↔ x ∈ collectObjects t :=
  Multiset.mem_coe

/-- Under the count invariant, numObjects is the total number of objects in
the subtree. -/
theorem countOK_card {t : QT} (h : countOK t) :
    t.numObjects = (Multiset.card (collectM t) : Int) := by
  induction t with
  | leaf d n c1 c2 ctr objs => simpa [QT.numObjects, collectM_leaf] using h
  | node d n c1 c2 ctr a b c dd objs iha ihb ihc ihd =>
      obtain ⟨hn, ha, hb, hc, hd⟩ := h
      show n = _
      rw [collectM_node]
      simp only [Multiset.card_add]
      rw [hn, iha ha, ihb hb, ihc hc, ihd hd]
      push_cast
      ring

/-- Generic four-way partition of a list by a Bool-pair classifier, as a
permutation. -/
theorem four_partition_perm (g : Nat → Bool × Bool) (l : List Nat) :
    ((l.filter fun x => decide (g x = (false, false))) ++
      ((l.filter fun x => decide (g x = (false, true))) ++
        ((l.filter fun x => decide (g x = (true, false))) ++
          (l.filter fun x => decide (g x = (true, true)))))).Perm l := by
  induction l with
  | nil => simp
  | cons x xs ih =>
      rcases hg : g x with ⟨b1, b2⟩
      cases b1 <;> cases b2
      · simpa [List.filter_cons, hg] using ih.cons x
      · simp only [List.filter_cons, hg]
        norm_num
        exact List.perm_middle.trans (ih.cons x)
      · simp only [List.filter_cons, hg]
        norm_num
        exact ((List.Perm.append_left _ List.perm_middle).trans List.perm_middle).trans (ih.cons x)
      · simp only [List.filter_cons, hg]
        norm_num
        exact (((List.Perm.append_left _ (List.Perm.append_left _ List.perm_middle)).trans
          (List.Perm.append_left _ List.perm_middle)).trans List.perm_middle).trans (ih.cons x)

/-- Generic four-way partition of a list by a Bool-pair classifier, as
multisets. -/
theorem four_partition (g : Nat → Bool × Bool) (l : List Nat) :
    ((l.filter fun x => decide (g x = (false, false))) : Multiset Nat) +
      ((l.filter fun x => decide (g x = (false, true))) : Multiset Nat) +
      ((l.filter fun x => decide (g x = (true, false))) : Multiset Nat) +
      ((l.filter fun x => decide (g x = (true, true))) : Multiset Nat) = (l : Multiset Nat) := by
  have h := Multiset.coe_eq_coe.mpr (four_partition_perm g l)
  simp only [← Multiset.coe_add] at h
  rw [← h]
  abel

/-- The four route filters of a list partition it. -/
theorem routeFilter_partition (p : Nat → Twof) (ctr : Twof) (l : List Nat) :
    (routeFilter p ctr (false, false) l : Multiset Nat) +
      (routeFilter p ctr (false, true) l : Multiset Nat) +
      (routeFilter p ctr (true, false) l : Multiset Nat) +
      (routeFilter p ctr (true, true) l : Multiset Nat) = (l : Multiset Nat) :=
  four_partition (fun x => route (p x) ctr) l

/-- Filing a single object routes it to exactly the child given by the
routing rule and applies the adder there. -/
theorem fileObjectAdd_eq (adder : QT → Nat → Option QT) (p : Nat → Twof) (ctr : Twof)
    (a b c d : QT) (o : Nat) :
    fileObjectAdd adder p ctr a b c d o =
      match route (p o) ctr with
      | (false, false) => (adder a o).map (fun x => (x, b, c, d))
      | (false, true) => (adder b o).map (fun x => (a, x, c, d))
      | (true, false) => (adder c o).map (fun x => (a, b, x, d))
      | (true, true) => (adder d o).map (fun x => (a, b, c, x)) := by
  unfold fileObjectAdd
  rw [fileTarget_eq]
  rcases route (p o) ctr with ⟨q1, q2⟩
  cases q1 <;> cases q2 <;> rfl

/-- Specification of the filing loop of makeChildren: given an adder obeying
addPost, filing a list distributes it over the four children according to
the routing rule. -/
theorem fileList_spec (adder : QT → Nat → Option QT) (p : Nat → Twof) (ctr : Twof)
    (k1 : Nat)
    (hadder : ∀ (t : QT) (o : Nat), goodDepth k1 t →
      ∃ t2, adder t o = some t2 ∧ addPost p k1 o t t2) :
    ∀ (l : List Nat) (a b c d : QT), goodDepth k1 a → goodDepth k1 b → goodDepth k1 c →
      goodDepth k1 d →
      ∃ a2 b2 c2 d2, fileList adder p ctr a b c d l = some (a2, b2, c2, d2) ∧
        filePost p k1 (routeFilter p ctr (false, false) l) a a2 ∧
        filePost p k1 (routeFilter p ctr (false, true) l) b b2 ∧
        filePost p k1 (routeFilter p ctr (true, false) l) c c2 ∧
        filePost p k1 (routeFilter p ctr (true, true) l) d d2 := by
  intro l
  induction l with
  | nil =>
      intro a b c d hga hgb hgc hgd
      exact ⟨a, b, c, d, rfl,
        ⟨hga, by simp [routeFilter], by simp [routeFilter], fun h => h, fun h => h⟩,
        ⟨hgb, by simp [routeFilter], by simp [routeFilter], fun h => h, fun h => h⟩,
        ⟨hgc, by simp [routeFilter], by simp [routeFilter], fun h => h, fun h => h⟩,
        ⟨hgd, by simp [routeFilter], by simp [routeFilter], fun h => h, fun h => h⟩⟩
  | cons o rest ih =>
      intro a b c d hga hgb hgc hgd
      rcases hq : route (p o) ctr with ⟨q1, q2⟩
      cases q1 <;> cases q2
      · -- routed to child [0][0]
        obtain ⟨a1, ha1, hdep, hc1, hc2, hctr, hnum, hgd1, hcoll, hcnt, hrt⟩ := hadder a o hga
        have hstep : fileObjectAdd adder p ctr a b c d o = some (a1, b, c, d) := by
          rw [fileObjectAdd_eq, hq, ha1]
          rfl
        obtain ⟨a2, b2, c2, d2, hfl, hpa, hpb, hpc, hpd⟩ := ih a1 b c d hgd1 hgb hgc hgd
        have hRF : routeFilter p ctr (false, false) (o :: rest) =
            o :: routeFilter p ctr (false, false) rest := by
          simp [routeFilter, List.filter_cons, hq]
        have hRF2 : routeFilter p ctr (false, true) (o :: rest) =
            routeFilter p ctr (false, true) rest := by
          simp [routeFilter, List.filter_cons, hq]
        have hRF3 : routeFilter p ctr (true, false) (o :: rest) =
            routeFilter p ctr (true, false) rest := by
          simp [routeFilter, List.filter_cons, hq]
        have hRF4 : routeFilter p ctr (true, true) (o :: rest) =
            routeFilter p ctr (true, true) rest := by
          simp [routeFilter, List.filter_cons, hq]
        rw [hRF, hRF2, hRF3, hRF4]
        obtain ⟨hg2, hcoll2, hnum2, hcnt2, hrt2⟩ := hpa
        refine ⟨a2, b2, c2, d2, ?_, ⟨hg2, ?_, ?_, fun h => hcnt2 (hcnt h), fun h => hrt2 (hrt h)⟩,
          hpb, hpc, hpd⟩
        · simp only [fileList, hstep]
          exact hfl
        · rw [hcoll2, hcoll]
          simp only [← Multiset.cons_coe, ← Multiset.singleton_add]
          abel
        · rw [hnum2, hnum]
          simp only [List.length_cons]
          push_cast
          ring
      · -- routed to child [0][1]
        obtain ⟨b1, hb1, hdep, hc1, hc2, hctr, hnum, hgd1, hcoll, hcnt, hrt⟩ := hadder b o hgb
        have hstep : fileObjectAdd adder p ctr a b c d o = some (a, b1, c, d) := by
          rw [fileObjectAdd_eq, hq, hb1]
          rfl
        obtain ⟨a2, b2, c2, d2, hfl, hpa, hpb, hpc, hpd⟩ := ih a b1 c d hga hgd1 hgc hgd
        have hRF : routeFilter p ctr (false, true) (o :: rest) =
            o :: routeFilter p ctr (false, true) rest := by
          simp [routeFilter, List.filter_cons, hq]
        have hRF2 : routeFilter p ctr (false, false) (o :: rest) =
            routeFilter p ctr (false, false) rest := by
          simp [routeFilter, List.filter_cons, hq]
        have hRF3 : routeFilter p ctr (true, false) (o :: rest) =
            routeFilter p ctr (true, false) rest := by
          simp [routeFilter, List.filter_cons, hq]
        have hRF4 : routeFilter p ctr (true, true) (o :: rest) =
            routeFilter p ctr (true, true) rest := by
          simp [routeFilter, List.filter_cons, hq]
        rw [hRF, hRF2, hRF3, hRF4]
        obtain ⟨hg2, hcoll2, hnum2, hcnt2, hrt2⟩ := hpb
        refine ⟨a2, b2, c2, d2, ?_, hpa,
          ⟨hg2, ?_, ?_, fun h => hcnt2 (hcnt h), fun h => hrt2 (hrt h)⟩, hpc, hpd⟩
        · simp only [fileList, hstep]
          exact hfl
        · rw [hcoll2, hcoll]
          simp only [← Multiset.cons_coe, ← Multiset.singleton_add]
          abel
        · rw [hnum2, hnum]
          simp only [List.length_cons]
          push_cast
          ring
      · -- routed to child [1][0]
        obtain ⟨c1q, hc1q, hdep, hc1, hc2, hctr, hnum, hgd1, hcoll, hcnt, hrt⟩ := hadder c o hgc
        have hstep : fileObjectAdd adder p ctr a b c d o = some (a, b, c1q, d) := by
          rw [fileObjectAdd_eq, hq, hc1q]
          rfl
        obtain ⟨a2, b2, c2, d2, hfl, hpa, hpb, hpc, hpd⟩ := ih a b c1q d hga hgb hgd1 hgd
        have hRF : routeFilter p ctr (true, false) (o :: rest) =
            o :: routeFilter p ctr (true, false) rest := by
          simp [routeFilter, List.filter_cons, hq]
        have hRF2 : routeFilter p ctr (false, false) (o :: rest) =
            routeFilter p ctr (false, false) rest := by
          simp [routeFilter, List.filter_cons, hq]
        have hRF3 : routeFilter p ctr (false, true) (o :: rest) =
            routeFilter p ctr (false, true) rest := by
          simp [routeFilter, List.filter_cons, hq]
        have hRF4 : routeFilter p ctr (true, true) (o :: rest) =
            routeFilter p ctr (true, true) rest := by
          simp [routeFilter, List.filter_cons, hq]
        rw [hRF, hRF2, hRF3, hRF4]
        obtain ⟨hg2, hcoll2, hnum2, hcnt2, hrt2⟩ := hpc
        refine ⟨a2, b2, c2, d2, ?_, hpa, hpb,
          ⟨hg2, ?_, ?_, fun h => hcnt2 (hcnt h), fun h => hrt2 (hrt h)⟩, hpd⟩
        · simp only [fileList, hstep]
          exact hfl
        · rw [hcoll2, hcoll]
          simp only [← Multiset.cons_coe, ← Multiset.singleton_add]
          abel
        · rw [hnum2, hnum]
          simp only [List.length_cons]
          push_cast
          ring
      · -- routed to child [1][1]
        obtain ⟨d1, hd1, hdep, hc1, hc2, hctr, hnum, hgd1, hcoll, hcnt, hrt⟩ := hadder d o hgd
        have hstep : fileObjectAdd adder p ctr a b c d o = some (a, b, c, d1) := by
          rw [fileObjectAdd_eq, hq, hd1]
          rfl
        obtain ⟨a2, b2, c2, d2, hfl, hpa, hpb, hpc, hpd⟩ := ih a b c d1 hga hgb hgc hgd1
        have hRF : routeFilter p ctr (true, true) (o :: rest) =
            o :: routeFilter p ctr (true, true) rest := by
          simp [routeFilter, List.filter_cons, hq]
        have hRF2 : routeFilter p ctr (false, false) (o :: rest) =
            routeFilter p ctr (false, false) rest := by
          simp [routeFilter, List.filter_cons, hq]
        have hRF3 : routeFilter p ctr (false, true) (o :: rest) =
            routeFilter p ctr (false, true) rest := by
          simp [routeFilter, List.filter_cons, hq]
        have hRF4 : routeFilter p ctr (true, false) (o :: rest) =
            routeFilter p ctr (true, false) rest := by
          simp [routeFilter, List.filter_cons, hq]
        rw [hRF, hRF2, hRF3, hRF4]
        obtain ⟨hg2, hcoll2, hnum2, hcnt2, hrt2⟩ := hpd
        refine ⟨a2, b2, c2, d2, ?_, hpa, hpb, hpc,
          ⟨hg2, ?_, ?_, fun h => hcnt2 (hcnt h), fun h => hrt2 (hrt h)⟩⟩
        · simp only [fileList, hstep]
          exact hfl
        · rw [hcoll2, hcoll]
          simp only [← Multiset.cons_coe, ← Multiset.singleton_add]
          abel
        · rw [hnum2, hnum]
          simp only [List.length_cons]
          push_cast
          ring

/-- Filing a one-element list is exactly one fileObjectAdd step. -/
theorem fileList_single (adder : QT → Nat → Option QT) (p : Nat → Twof) (ctr : Twof)
    (a b c d : QT) (o : Nat) :
    fileList adder p ctr a b c d [o] = fileObjectAdd adder p ctr a b c d o := by
  unfold fileList
  cases h : fileObjectAdd adder p ctr a b c d o with
  | some tup =>
      obtain ⟨a1, b1, c1, d1⟩ := tup
      rfl
  | none => rfl

/-- An object of a route filter routes to that quadrant. -/
theorem routeFilter_mem {p : Nat → Twof} {ctr : Twof} {q : Bool × Bool} {l : List Nat}
    {x : Nat} (h : x ∈ routeFilter p ctr q l) : route (p x) ctr = q :=
  of_decide_eq_true (List.mem_filter.mp h).2

/-- A fresh child node is empty. -/
theorem collectM_initQT (c1 c2 : Twof) (k : Nat) : collectM (initQT c1 c2 k) = 0 := rfl

/-- A fresh child node has count zero. -/
theorem numObjects_initQT (c1 c2 : Twof) (k : Nat) : (initQT c1 c2 k).numObjects = 0 := rfl

/-- A fresh child node satisfies the count invariant. -/
theorem countOK_initQT (c1 c2 : Twof) (k : Nat) : countOK (initQT c1 c2 k) := by
  show (0 : Int) = _
  simp

/-- A fresh child node satisfies the routing invariant. -/
theorem routeOK_initQT (p : Nat → Twof) (c1 c2 : Twof) (k : Nat) :
    routeOK p (initQT c1 c2 k) := trivial

/-- The lengths of the four route filters of a list sum to its length. -/
theorem routeFilter_length (p : Nat → Twof) (ctr : Twof) (l : List Nat) :
    (routeFilter p ctr (false, false) l).length + (routeFilter p ctr (false, true) l).length +
      (routeFilter p ctr (true, false) l).length +
      (routeFilter p ctr (true, true) l).length = l.length := by
  have h := congrArg Multiset.card (routeFilter_partition p ctr l)
  simp only [Multiset.card_add, Multiset.coe_card] at h
  omega

/-- Main specification of addF: on a tree with correct depth bookkeeping at
level k, fuel of at least maxQuadtreeDepth + 1 - k suffices, and the
operation satisfies addPost (geometry unchanged, count incremented, object
inserted, depth, count and routing invariants preserved). -/
theorem addF_spec (p : Nat → Twof) :
    ∀ (fuel k : Nat) (t : QT) (o : Nat), goodDepth k t →
      maxQuadtreeDepth + 1 ≤ fuel + k →
      ∃ t2, addF p fuel t o = some t2 ∧ addPost p k o t t2 := by
  intro fuel
  induction fuel with
  | zero =>
      intro k t o hg hf
      exact absurd (goodDepth_le hg) (by omega)
  | succ fuel ih =>
      intro k t o hg hf
      have hadder : ∀ (t1 : QT) (o1 : Nat), goodDepth (k + 1) t1 →
          ∃ t2, addF p fuel t1 o1 = some t2 ∧ addPost p (k + 1) o1 t1 t2 :=
        fun t1 o1 hgt => ih (k + 1) t1 o1 hgt (by omega)
      cases t with
      | leaf d n c1 c2 ctr objs =>
          obtain ⟨hd, hk⟩ := hg
          subst hd
          by_cases hsplit : d < maxQuadtreeDepth ∧ n + 1 > maxObjectsPerQuadtree
          · obtain ⟨hklt, hn1⟩ := hsplit
            obtain ⟨a2, b2, c2x, d2, hfl, hpa, hpb, hpc, hpd⟩ :=
              fileList_spec (addF p fuel) p ctr (d + 1) hadder objs
                (initQT (c1.1, c1.2) (ctr.1, ctr.2) (d + 1))
                (initQT (c1.1, ctr.2) (ctr.1, c2.2) (d + 1))
                (initQT (ctr.1, c1.2) (c2.1, ctr.2) (d + 1))
                (initQT (ctr.1, ctr.2) (c2.1, c2.2) (d + 1))
                ⟨rfl, by omega⟩ ⟨rfl, by omega⟩ ⟨rfl, by omega⟩ ⟨rfl, by omega⟩
            obtain ⟨af, bf, cf, df, hfo, hqa, hqb, hqc, hqd⟩ :=
              fileList_spec (addF p fuel) p ctr (d + 1) hadder [o] a2 b2 c2x d2
                hpa.1 hpb.1 hpc.1 hpd.1
            have hfo2 : fileObjectAdd (addF p fuel) p ctr a2 b2 c2x d2 o =
                some (af, bf, cf, df) := by
              rw [← fileList_single]
              exact hfo
            have hpart1 := routeFilter_partition p ctr objs
            have hpart2 := routeFilter_partition p ctr [o]
            have hlen1 := routeFilter_length p ctr objs
            have hlen2 := routeFilter_length p ctr [o]
            simp only [List.length_singleton] at hlen2
            refine ⟨.node d (n + 1) c1 c2 ctr af bf cf df [], ?_, rfl, rfl, rfl, rfl, rfl,
              ⟨rfl, hklt, hqa.1, hqb.1, hqc.1, hqd.1⟩, ?_, ?_, ?_⟩
            · simp only [addF, makeKids]
              rw [if_pos ⟨hklt, hn1⟩]
              simp only [hfl, hfo2]
            · rw [collectM_node, hqa.2.1, hqb.2.1, hqc.2.1, hqd.2.1,
                hpa.2.1, hpb.2.1, hpc.2.1, hpd.2.1]
              simp only [collectM_initQT, add_zero]
              rw [show collectM (QT.leaf d n c1 c2 ctr objs) = (objs : Multiset Nat) from rfl]
              rw [← Multiset.singleton_add, ← Multiset.coe_singleton, ← hpart1, ← hpart2]
              abel
            · intro hc
              have hcn : n = (objs.length : Int) := hc
              refine ⟨?_, hqa.2.2.2.1 (hpa.2.2.2.1 (countOK_initQT _ _ _)),
                hqb.2.2.2.1 (hpb.2.2.2.1 (countOK_initQT _ _ _)),
                hqc.2.2.2.1 (hpc.2.2.2.1 (countOK_initQT _ _ _)),
                hqd.2.2.2.1 (hpd.2.2.2.1 (countOK_initQT _ _ _))⟩
              show n + 1 = _
              rw [hqa.2.2.1, hqb.2.2.1, hqc.2.2.1, hqd.2.2.1,
                hpa.2.2.1, hpb.2.2.1, hpc.2.2.1, hpd.2.2.1]
              simp only [numObjects_initQT]
              omega
            · intro _
              refine ⟨?_, ?_, ?_, ?_,
                hqa.2.2.2.2 (hpa.2.2.2.2 trivial), hqb.2.2.2.2 (hpb.2.2.2.2 trivial),
                hqc.2.2.2.2 (hpc.2.2.2.2 trivial), hqd.2.2.2.2 (hpd.2.2.2.2 trivial)⟩
              · intro x hx
                have hx2 := mem_collectM.mpr hx
                rw [hqa.2.1, hpa.2.1] at hx2
                simp only [collectM_initQT, add_zero, Multiset.mem_add, Multiset.mem_coe] at hx2
                rcases hx2 with h | h
                · exact routeFilter_mem h
                · exact routeFilter_mem h
              · intro x hx
                have hx2 := mem_collectM.mpr hx
                rw [hqb.2.1, hpb.2.1] at hx2
                simp only [collectM_initQT, add_zero, Multiset.mem_add, Multiset.mem_coe] at hx2
                rcases hx2 with h | h
                · exact routeFilter_mem h
                · exact routeFilter_mem h
              · intro x hx
                have hx2 := mem_collectM.mpr hx
                rw [hqc.2.1, hpc.2.1] at hx2
                simp only [collectM_initQT, add_zero, Multiset.mem_add, Multiset.mem_coe] at hx2
                rcases hx2 with h | h
                · exact routeFilter_mem h
                · exact routeFilter_mem h
              · intro x hx
                have hx2 := mem_collectM.mpr hx
                rw [hqd.2.1, hpd.2.1] at hx2
                simp only [collectM_initQT, add_zero, Multiset.mem_add, Multiset.mem_coe] at hx2
                rcases hx2 with h | h
                · exact routeFilter_mem h
                · exact routeFilter_mem h
          · refine ⟨.leaf d (n + 1) c1 c2 ctr (objs ++ [o]), ?_, rfl, rfl, rfl, rfl, rfl,
              ⟨rfl, hk⟩, ?_, ?_, fun _ => trivial⟩
            · simp only [addF]
              rw [if_neg hsplit]
            · show ((objs ++ [o] : List Nat) : Multiset Nat) = o ::ₘ (objs : Multiset Nat)
              rw [← Multiset.coe_add, ← Multiset.singleton_add, ← Multiset.coe_singleton]
              abel
            · intro hc
              have hcn : n = (objs.length : Int) := hc
              show n + 1 = _
              simp
              omega
      | node d n c1 c2 ctr a b c dd objs =>
          obtain ⟨hd, hklt, hga, hgb, hgc, hgdd⟩ := hg
          subst hd
          obtain ⟨af, bf, cf, df, hfo, hqa, hqb, hqc, hqd⟩ :=
            fileList_spec (addF p fuel) p ctr (d + 1) hadder [o] a b c dd hga hgb hgc hgdd
          have hfo2 : fileObjectAdd (addF p fuel) p ctr a b c dd o =
              some (af, bf, cf, df) := by
            rw [← fileList_single]
            exact hfo
          have hpart2 := routeFilter_partition p ctr [o]
          have hlen2 := routeFilter_length p ctr [o]
          simp only [List.length_singleton] at hlen2
          refine ⟨.node d (n + 1) c1 c2 ctr af bf cf df objs, ?_, rfl, rfl, rfl, rfl, rfl,
            ⟨rfl, hklt, hqa.1, hqb.1, hqc.1, hqd.1⟩, ?_, ?_, ?_⟩
          · simp only [addF, hfo2]
          · rw [collectM_node, collectM_node, hqa.2.1, hqb.2.1, hqc.2.1, hqd.2.1]
            rw [← Multiset.singleton_add, ← Multiset.coe_singleton, ← hpart2]
            abel
          · intro hc
            obtain ⟨hn, hca, hcb, hcc, hcd⟩ := hc
            refine ⟨?_, hqa.2.2.2.1 hca, hqb.2.2.2.1 hcb, hqc.2.2.2.1 hcc, hqd.2.2.2.1 hcd⟩
            show n + 1 = _
            rw [hqa.2.2.1, hqb.2.2.1, hqc.2.2.1, hqd.2.2.1, hn]
            omega
          · intro hr
            obtain ⟨hr1, hr2, hr3, hr4, hra, hrb, hrc, hrd⟩ := hr
            refine ⟨?_, ?_, ?_, ?_, hqa.2.2.2.2 hra, hqb.2.2.2.2 hrb,
              hqc.2.2.2.2 hrc, hqd.2.2.2.2 hrd⟩
            · intro x hx
              have hx2 := mem_collectM.mpr hx
              rw [hqa.2.1] at hx2
              rcases Multiset.mem_add.mp hx2 with h | h
              · exact routeFilter_mem (Multiset.mem_coe.mp h)
              · exact hr1 x (mem_collectM.mp h)
            · intro x hx
              have hx2 := mem_collectM.mpr hx
              rw [hqb.2.1] at hx2
              rcases Multiset.mem_add.mp hx2 with h | h
              · exact routeFilter_mem (Multiset.mem_coe.mp h)
              · exact hr2 x (mem_collectM.mp h)
            · intro x hx
              have hx2 := mem_collectM.mpr hx
              rw [hqc.2.1] at hx2
              rcases Multiset.mem_add.mp hx2 with h | h
              · exact routeFilter_mem (Multiset.mem_coe.mp h)
              · exact hr3 x (mem_collectM.mp h)
            · intro x hx
              have hx2 := mem_collectM.mpr hx
              rw [hqd.2.1] at hx2
              rcases Multiset.mem_add.mp hx2 with h | h
              · exact routeFilter_mem (Multiset.mem_coe.mp h)
              · exact hr4 x (mem_collectM.mp h)

/-- Removing an object that is nowhere in the subtree always panics: the
count check fails, or the leaf search (after a possible collapse) fails, or
the search descends into a child that also lacks the object. -/
theorem removeQ_not_mem (p : Nat → Twof) (o : Nat) :
    ∀ t : QT, o ∉ collectObjects t → removeQ p t o = none := by
  intro t
  induction t with
  | leaf d n c1 c2 ctr objs =>
      intro h
      have h2 : o ∉ objs := h
      simp only [removeQ]
      split
      · rfl
      · rw [swapRemove_eq_none.mpr h2]
  | node d n c1 c2 ctr a b c dd objs iha ihb ihc ihd =>
      intro h
      have hna : o ∉ collectObjects a := fun hh => h (by simp [collectObjects, hh])
      have hnb : o ∉ collectObjects b := fun hh => h (by simp [collectObjects, hh])
      have hnc : o ∉ collectObjects c := fun hh => h (by simp [collectObjects, hh])
      have hnd : o ∉ collectObjects dd := fun hh => h (by simp [collectObjects, hh])
      simp only [removeQ]
      split
      · rfl
      · split
        · rw [swapRemove_eq_none.mpr h]
        · rw [fileTarget_eq]
          rcases route (p o) ctr with ⟨q1, q2⟩
          cases q1 <;> cases q2 <;>
            simp [iha hna, ihb hnb, ihc hnc, ihd hnd]

/-- Main specification of remove on a well-formed subtree containing the
object: it succeeds, the geometry is unchanged, the count drops by one, the
object leaves the contents, and the depth, count and routing invariants are
preserved. -/
theorem removeQ_spec (p : Nat → Twof) (o : Nat) :
    ∀ (t : QT) (k : Nat), goodDepth k t → countOK t → routeOK p t →
      (collectObjects t).Nodup → o ∈ collectObjects t →
      ∃ t2, removeQ p t o = some t2 ∧ t2.depth = t.depth ∧ t2.corner1 = t.corner1 ∧
        t2.corner2 = t.corner2 ∧ t2.center = t.center ∧
        t2.numObjects = t.numObjects - 1 ∧ goodDepth k t2 ∧
        collectM t2 = (collectM t).erase o ∧ countOK t2 ∧ routeOK p t2 := by
  intro t
  induction t with
  | leaf d n c1 c2 ctr objs =>
      intro k hg hc hr hnd hmem
      have hmem2 : o ∈ objs := hmem
      have hcn : n = (objs.length : Int) := hc
      have hlen : 0 < objs.length := List.length_pos.mpr (List.ne_nil_of_mem hmem2)
      have hn1 : ¬ (n - 1 < 0) := by omega
      cases hsw : swapRemove objs o with
      | none => exact absurd (swapRemove_eq_none.mp hsw) (by simpa using hmem2)
      | some l2 =>
          have hperm := swapRemove_perm hsw
          have hlen2 : l2.length = objs.length - 1 := by
            rw [hperm.length_eq, List.length_erase_of_mem hmem2]
          refine ⟨.leaf d (n - 1) c1 c2 ctr l2, ?_, rfl, rfl, rfl, rfl, rfl,
            ⟨hg.1, hg.2⟩, ?_, ?_, trivial⟩
          · simp only [removeQ, hsw]
            rw [if_neg hn1]
          · show (l2 : Multiset Nat) = ((objs : Multiset Nat)).erase o
            rw [Multiset.coe_eq_coe.mpr hperm]
            exact (Multiset.coe_erase objs o)
          · show n - 1 = (l2.length : Int)
            omega
  | node d n c1 c2 ctr a b c dd objs iha ihb ihc ihd =>
      intro k hg hc hr hnd hmem
      obtain ⟨hd, hklt, hga, hgb, hgc, hgdd⟩ := hg
      have hcnt := countOK_card hc
      obtain ⟨hn, hca, hcb, hcc, hcd⟩ := hc
      obtain ⟨hr1, hr2, hr3, hr4, hra, hrb, hrc, hrd⟩ := hr
      have hmemM : o ∈ collectM (.node d n c1 c2 ctr a b c dd objs) := mem_collectM.mpr hmem
      have hpos : 0 < Multiset.card (collectM (.node d n c1 c2 ctr a b c dd objs)) :=
        Multiset.card_pos_iff_exists_mem.mpr ⟨o, hmemM⟩
      have hn1 : ¬ (n - 1 < 0) := by
        rw [show QT.numObjects (.node d n c1 c2 ctr a b c dd objs) = n from rfl] at hcnt
        omega
      by_cases hmin : n - 1 < minObjectsPerQuadtree
      · cases hsw : swapRemove (collectObjects (.node d n c1 c2 ctr a b c dd objs)) o with
        | none => exact absurd (swapRemove_eq_none.mp hsw) (by simpa using hmem)
        | some l2 =>
            have hperm := swapRemove_perm hsw
            have hlen2 : l2.length = (collectObjects (.node d n c1 c2 ctr a b c dd objs)).length - 1 := by
              rw [hperm.length_eq, List.length_erase_of_mem hmem]
            refine ⟨.leaf d (n - 1) c1 c2 ctr l2, ?_, rfl, rfl, rfl, rfl, rfl,
              ⟨hd, by omega⟩, ?_, ?_, trivial⟩
            · simp only [removeQ, hsw]
              rw [if_neg hn1, if_pos hmin]
            · show (l2 : Multiset Nat) = _
              rw [Multiset.coe_eq_coe.mpr hperm]
              exact (Multiset.coe_erase _ o)
            · show n - 1 = (l2.length : Int)
              have : Multiset.card (collectM (.node d n c1 c2 ctr a b c dd objs)) =
                  (collectObjects (.node d n c1 c2 ctr a b c dd objs)).length := by
                simp [collectM]
              rw [show QT.numObjects (.node d n c1 c2 ctr a b c dd objs) = n from rfl] at hcnt
              omega
      · have hmem4 : o ∈ collectObjects a ∨ o ∈ collectObjects b ∨ o ∈ collectObjects c ∨
            o ∈ collectObjects dd := by
          simpa [collectObjects, or_assoc] using hmem
        have hnda : (collectObjects a).Nodup :=
          (hnd.of_append_left).of_append_left.of_append_left
        have hndb : (collectObjects b).Nodup :=
          ((hnd.of_append_left).of_append_left).of_append_right
        have hndc : (collectObjects c).Nodup := (hnd.of_append_left).of_append_right
        have hndd : (collectObjects dd).Nodup := hnd.of_append_right
        rcases hmem4 with hmA | hmB | hmC | hmD
        · have hq : route (p o) ctr = (false, false) := hr1 o hmA
          obtain ⟨a2, hrm, hdep2, hc12, hc22, hctr2, hnum2, hgd2, hcoll2, hcnt2, hrt2⟩ :=
            iha (k + 1) hga hca hra hnda hmA
          refine ⟨.node d (n - 1) c1 c2 ctr a2 b c dd objs, ?_, rfl, rfl, rfl, rfl, rfl,
            ⟨hd, hklt, hgd2, hgb, hgc, hgdd⟩, ?_, ?_, ?_⟩
          · simp only [removeQ]
            rw [if_neg hn1, if_neg hmin, fileTarget_eq, hq, hrm]
            rfl
          · rw [collectM_node, collectM_node, hcoll2]
            have hm1 : o ∈ collectM a := mem_collectM.mpr hmA
            have hm2 : o ∈ collectM a + collectM b := Multiset.mem_add.mpr (Or.inl hm1)
            have hm3 : o ∈ collectM a + collectM b + collectM c :=
              Multiset.mem_add.mpr (Or.inl hm2)
            rw [Multiset.erase_add_left_pos _ hm3, Multiset.erase_add_left_pos _ hm2,
              Multiset.erase_add_left_pos _ hm1]
          · refine ⟨?_, hcnt2, hcb, hcc, hcd⟩
            show n - 1 = _
            rw [hnum2, hn]
            ring
          · refine ⟨?_, hr2, hr3, hr4, hrt2, hrb, hrc, hrd⟩
            intro x hx
            have hx2 := mem_collectM.mpr hx
            rw [hcoll2] at hx2
            exact hr1 x (mem_collectM.mp (Multiset.mem_of_mem_erase hx2))
        · have hq : route (p o) ctr = (false, true) := hr2 o hmB
          obtain ⟨b2, hrm, hdep2, hc12, hc22, hctr2, hnum2, hgd2, hcoll2, hcnt2, hrt2⟩ :=
            ihb (k + 1) hgb hcb hrb hndb hmB
          refine ⟨.node d (n - 1) c1 c2 ctr a b2 c dd objs, ?_, rfl, rfl, rfl, rfl, rfl,
            ⟨hd, hklt, hga, hgd2, hgc, hgdd⟩, ?_, ?_, ?_⟩
          · simp only [removeQ]
            rw [if_neg hn1, if_neg hmin, fileTarget_eq, hq, hrm]
            rfl
          · rw [collectM_node, collectM_node, hcoll2]
            have hm1 : o ∈ collectM b := mem_collectM.mpr hmB
            have hm2 : o ∈ collectM a + collectM b := Multiset.mem_add.mpr (Or.inr hm1)
            have hm3 : o ∈ collectM a + collectM b + collectM c :=
              Multiset.mem_add.mpr (Or.inl hm2)
            rw [Multiset.erase_add_left_pos _ hm3, Multiset.erase_add_left_pos _ hm2,
              Multiset.erase_add_right_pos _ hm1]
          · refine ⟨?_, hca, hcnt2, hcc, hcd⟩
            show n - 1 = _
            rw [hnum2, hn]
            ring
          · refine ⟨hr1, ?_, hr3, hr4, hra, hrt2, hrc, hrd⟩
            intro x hx
            have hx2 := mem_collectM.mpr hx
            rw [hcoll2] at hx2
            exact hr2 x (mem_collectM.mp (Multiset.mem_of_mem_erase hx2))
        · have hq : route (p o) ctr = (true, false) := hr3 o hmC
          obtain ⟨c2q, hrm, hdep2, hc12, hc22, hctr2, hnum2, hgd2, hcoll2, hcnt2, hrt2⟩ :=
            ihc (k + 1) hgc hcc hrc hndc hmC
          refine ⟨.node d (n - 1) c1 c2 ctr a b c2q dd objs, ?_, rfl, rfl, rfl, rfl, rfl,
            ⟨hd, hklt, hga, hgb, hgd2, hgdd⟩, ?_, ?_, ?_⟩
          · simp only [removeQ]
            rw [if_neg hn1, if_neg hmin, fileTarget_eq, hq, hrm]
            rfl
          · rw [collectM_node, collectM_node, hcoll2]
            have hm1 : o ∈ collectM c := mem_collectM.mpr hmC
            have hm3 : o ∈ collectM a + collectM b + collectM c :=
              Multiset.mem_add.mpr (Or.inr hm1)
            rw [Multiset.erase_add_left_pos _ hm3, Multiset.erase_add_right_pos _ hm1]
          · refine ⟨?_, hca, hcb, hcnt2, hcd⟩
            show n - 1 = _
            rw [hnum2, hn]
            ring
          · refine ⟨hr1, hr2, ?_, hr4, hra, hrb, hrt2, hrd⟩
            intro x hx
            have hx2 := mem_collectM.mpr hx
            rw [hcoll2] at hx2
            exact hr3 x (mem_collectM.mp (Multiset.mem_of_mem_erase hx2))
        · have hq : route (p o) ctr = (true, true) := hr4 o hmD
          obtain ⟨d2, hrm, hdep2, hc12, hc22, hctr2, hnum2, hgd2, hcoll2, hcnt2, hrt2⟩ :=
            ihd (k + 1) hgdd hcd hrd hndd hmD
          refine ⟨.node d (n - 1) c1 c2 ctr a b c d2 objs, ?_, rfl, rfl, rfl, rfl, rfl,
            ⟨hd, hklt, hga, hgb, hgc, hgd2⟩, ?_, ?_, ?_⟩
          · simp only [removeQ]
            rw [if_neg hn1, if_neg hmin, fileTarget_eq, hq, hrm]
            rfl
          · rw [collectM_node, collectM_node, hcoll2]
            have hm1 : o ∈ collectM dd := mem_collectM.mpr hmD
            rw [Multiset.erase_add_right_pos _ hm1]
          · refine ⟨?_, hca, hcb, hcc, hcnt2⟩
            show n - 1 = _
            rw [hnum2, hn]
            ring
          · refine ⟨hr1, hr2, hr3, ?_, hra, hrb, hrc, hrt2⟩
            intro x hx
            have hx2 := mem_collectM.mpr hx
            rw [hcoll2] at hx2
            exact hr4 x (mem_collectM.mp (Multiset.mem_of_mem_erase hx2))

/-- The stored depth of a tree with correct depth bookkeeping at level k
is k. -/
theorem goodDepth_depth {k : Nat} {t : QT} (h : goodDepth k t) : t.depth = k := by
  cases t with
  | leaf d n c1 c2 ctr objs => exact h.1
  | node d n c1 c2 ctr a b c dd objs => exact h.1

/-- setCorners leaves the depth field unchanged. -/
theorem setCorners_depth (t : QT) (nc1 nc2 : Twof) :
    (setCorners t nc1 nc2).depth = t.depth := by
  cases t <;> rfl

/-- setCorners leaves the count field unchanged. -/
theorem setCorners_numObjects (t : QT) (nc1 nc2 : Twof) :
    (setCorners t nc1 nc2).numObjects = t.numObjects := by
  cases t <;> rfl

/-- setCorners writes the first corner. -/
theorem setCorners_corner1 (t : QT) (nc1 nc2 : Twof) :
    (setCorners t nc1 nc2).corner1 = nc1 := by
  cases t <;> rfl

/-- setCorners writes the second corner. -/
theorem setCorners_corner2 (t : QT) (nc1 nc2 : Twof) :
    (setCorners t nc1 nc2).corner2 = nc2 := by
  cases t <;> rfl

/-- destroyChildren leaves the depth field unchanged. -/
theorem destroyChildren_depth (t : QT) : (destroyChildren t).depth = t.depth := by
  cases t <;> rfl

/-- destroyChildren leaves the count field unchanged (also when the list of
a childless node is dropped, which is what desynchronizes count and
contents on the expansion path). -/
theorem destroyChildren_numObjects (t : QT) :
    (destroyChildren t).numObjects = t.numObjects := by
  cases t <;> rfl

/-- checkExpand never changes the object count field. -/
theorem checkExpand_numObjects (t : QT) (tf : Twof) :
    (checkExpand t tf).numObjects = t.numObjects := by
  simp only [checkExpand]
  split
  · rw [setCorners_numObjects, destroyChildren_numObjects]
  · rfl

/-- checkExpand never changes the stored depth. -/
theorem checkExpand_depth (t : QT) (tf : Twof) :
    (checkExpand t tf).depth = t.depth := by
  simp only [checkExpand]
  split
  · rw [setCorners_depth, destroyChildren_depth]
  · rfl

/-- testPresent never hits its failing branch: the routing loop always
selects a quadrant. -/
theorem testPresent_isSome (t : QT) (o : Nat) (pos : Twof) :
    (testPresent t o pos).isSome := by
  induction t with
  | leaf d n c1 c2 ctr objs => simp [testPresent]
  | node d n c1 c2 ctr a b c dd objs iha ihb ihc ihd =>
      simp only [testPresent, presentTarget_eq]
      rcases route pos ctr with ⟨q1, q2⟩
      cases q1 <;> cases q2
      · exact iha
      · exact ihb
      · exact ihc
      · exact ihd

/-- A successful presence test means the object is somewhere in the
subtree. -/
theorem testPresent_mem {t : QT} {o : Nat} {pos : Twof}
    (h : testPresent t o pos = some true) : o ∈ collectObjects t := by
  induction t with
  | leaf d n c1 c2 ctr objs =>
      have h2 : objs.contains o = true := by
        simpa [testPresent] using h
      simpa using h2
  | node d n c1 c2 ctr a b c dd objs iha ihb ihc ihd =>
      rw [testPresent, presentTarget_eq] at h
      rcases hq : route pos ctr with ⟨q1, q2⟩
      rw [hq] at h
      cases q1 <;> cases q2
      · simp [collectObjects, iha h]
      · simp [collectObjects, ihb h]
      · simp [collectObjects, ihc h]
      · simp [collectObjects, ihd h]

/-- A position map change outside the subtree contents does not affect the
routing invariant. -/
theorem routeOK_congr {p1 p2 : Nat → Twof} :
    ∀ {t : QT}, (∀ x ∈ collectObjects t, p2 x = p1 x) → routeOK p1 t → routeOK p2 t := by
  intro t
  induction t with
  | leaf d n c1 c2 ctr objs => exact fun _ _ => trivial
  | node d n c1 c2 ctr a b c dd objs iha ihb ihc ihd =>
      intro hag hr
      obtain ⟨hr1, hr2, hr3, hr4, hra, hrb, hrc, hrd⟩ := hr
      have hga : ∀ x ∈ collectObjects a, p2 x = p1 x :=
        fun x hx => hag x (by simp [collectObjects, hx])
      have hgb : ∀ x ∈ collectObjects b, p2 x = p1 x :=
        fun x hx => hag x (by simp [collectObjects, hx])
      have hgc : ∀ x ∈ collectObjects c, p2 x = p1 x :=
        fun x hx => hag x (by simp [collectObjects, hx])
      have hgd : ∀ x ∈ collectObjects dd, p2 x = p1 x :=
        fun x hx => hag x (by simp [collectObjects, hx])
      exact ⟨fun x hx => by rw [hga x hx]; exact hr1 x hx,
        fun x hx => by rw [hgb x hx]; exact hr2 x hx,
        fun x hx => by rw [hgc x hx]; exact hr3 x hx,
        fun x hx => by rw [hgd x hx]; exact hr4 x hx,
        iha hga hra, ihb hgb hrb, ihc hgc hrc, ihd hgd hrd⟩

/-- After a successful presence test of object o at position tpos, updating
the position of o to tpos keeps the routing invariant: the object already
sits in the leaf that tpos routes to. -/
theorem testPresent_routeOK {p : Nat → Twof} {o : Nat} {tpos : Twof} :
    ∀ {t : QT}, routeOK p t → (collectObjects t).Nodup →
      testPresent t o tpos = some true → routeOK (updf p o tpos) t := by
  intro t
  induction t with
  | leaf d n c1 c2 ctr objs => exact fun _ _ _ => trivial
  | node d n c1 c2 ctr a b c dd objs iha ihb ihc ihd =>
      intro hr hnd htp
      obtain ⟨hr1, hr2, hr3, hr4, hra, hrb, hrc, hrd⟩ := hr
      have hnda : (collectObjects a).Nodup :=
        (hnd.of_append_left).of_append_left.of_append_left
      have hndb : (collectObjects b).Nodup :=
        ((hnd.of_append_left).of_append_left).of_append_right
      have hndc : (collectObjects c).Nodup := (hnd.of_append_left).of_append_right
      have hndd : (collectObjects dd).Nodup := hnd.of_append_right
      rw [testPresent, presentTarget_eq] at htp
      rcases hq : route tpos ctr with ⟨q1, q2⟩
      rw [hq] at htp
      have hupd : ∀ x, x ≠ o → updf p o tpos x = p x := by
        intro x hx
        simp [updf, hx]
      have hupdo : updf p o tpos o = tpos := by simp [updf]
      cases q1 <;> cases q2
      · -- o is found in child a along the route of tpos
        have hmA : o ∈ collectObjects a := testPresent_mem htp
        have hnotb : o ∉ collectObjects b := fun hh =>
          (List.disjoint_of_nodup_append (hnd.of_append_left).of_append_left)
            hmA hh
        have hnotc : o ∉ collectObjects c := fun hh =>
          (List.disjoint_of_nodup_append hnd.of_append_left)
            (by simp [hmA]) hh
        have hnotd : o ∉ collectObjects dd := fun hh =>
          (List.disjoint_of_nodup_append hnd) (by simp [collectObjects, hmA]) hh
        refine ⟨?_, ?_, ?_, ?_, iha hra hnda htp,
          routeOK_congr (fun x hx => hupd x (fun he => hnotb (he ▸ hx))) hrb,
          routeOK_congr (fun x hx => hupd x (fun he => hnotc (he ▸ hx))) hrc,
          routeOK_congr (fun x hx => hupd x (fun he => hnotd (he ▸ hx))) hrd⟩
        · intro x hx
          by_cases hxo : x = o
          · subst hxo
            rw [hupdo, hq]
          · rw [hupd x hxo]
            exact hr1 x hx
        · intro x hx
          rw [hupd x (fun he => hnotb (he ▸ hx))]
          exact hr2 x hx
        · intro x hx
          rw [hupd x (fun he => hnotc (he ▸ hx))]
          exact hr3 x hx
        · intro x hx
          rw [hupd x (fun he => hnotd (he ▸ hx))]
          exact hr4 x hx
      · -- o is found in child b
        have hmB : o ∈ collectObjects b := testPresent_mem htp
        have hnota : o ∉ collectObjects a := fun hh =>
          (List.disjoint_of_nodup_append (hnd.of_append_left).of_append_left) hh hmB
        have hnotc : o ∉ collectObjects c := fun hh =>
          (List.disjoint_of_nodup_append hnd.of_append_left) (by simp [hmB]) hh
        have hnotd : o ∉ collectObjects dd := fun hh =>
          (List.disjoint_of_nodup_append hnd) (by simp [collectObjects, hmB]) hh
        refine ⟨?_, ?_, ?_, ?_,
          routeOK_congr (fun x hx => hupd x (fun he => hnota (he ▸ hx))) hra,
          ihb hrb hndb htp,
          routeOK_congr (fun x hx => hupd x (fun he => hnotc (he ▸ hx))) hrc,
          routeOK_congr (fun x hx => hupd x (fun he => hnotd (he ▸ hx))) hrd⟩
        · intro x hx
          rw [hupd x (fun he => hnota (he ▸ hx))]
          exact hr1 x hx
        · intro x hx
          by_cases hxo : x = o
          · subst hxo
            rw [hupdo, hq]
          · rw [hupd x hxo]
            exact hr2 x hx
        · intro x hx
          rw [hupd x (fun he => hnotc (he ▸ hx))]
          exact hr3 x hx
        · intro x hx
          rw [hupd x (fun he => hnotd (he ▸ hx))]
          exact hr4 x hx
      · -- o is found in child c
        have hmC : o ∈ collectObjects c := testPresent_mem htp
        have hnota : o ∉ collectObjects a := fun hh =>
          (List.disjoint_of_nodup_append hnd.of_append_left) (by simp [hh]) hmC
        have hnotb : o ∉ collectObjects b := fun hh =>
          (List.disjoint_of_nodup_append hnd.of_append_left) (by simp [hh]) hmC
        have hnotd : o ∉ collectObjects dd := fun hh =>
          (List.disjoint_of_nodup_append hnd) (by simp [collectObjects, hmC]) hh
        refine ⟨?_, ?_, ?_, ?_,
          routeOK_congr (fun x hx => hupd x (fun he => hnota (he ▸ hx))) hra,
          routeOK_congr (fun x hx => hupd x (fun he => hnotb (he ▸ hx))) hrb,
          ihc hrc hndc htp,
          routeOK_congr (fun x hx => hupd x (fun he => hnotd (he ▸ hx))) hrd⟩
        · intro x hx
          rw [hupd x (fun he => hnota (he ▸ hx))]
          exact hr1 x hx
        · intro x hx
          rw [hupd x (fun he => hnotb (he ▸ hx))]
          exact hr2 x hx
        · intro x hx
          by_cases hxo : x = o
          · subst hxo
            rw [hupdo, hq]
          · rw [hupd x hxo]
            exact hr3 x hx
        · intro x hx
          rw [hupd x (fun he => hnotd (he ▸ hx))]
          exact hr4 x hx
      · -- o is found in child dd
        have hmD : o ∈ collectObjects dd := testPresent_mem htp
        have hnota : o ∉ collectObjects a := fun hh =>
          (List.disjoint_of_nodup_append hnd) (by simp [collectObjects, hh]) hmD
        have hnotb : o ∉ collectObjects b := fun hh =>
          (List.disjoint_of_nodup_append hnd) (by simp [collectObjects, hh]) hmD
        have hnotc : o ∉ collectObjects c := fun hh =>
          (List.disjoint_of_nodup_append hnd) (by simp [collectObjects, hh]) hmD
        refine ⟨?_, ?_, ?_, ?_,
          routeOK_congr (fun x hx => hupd x (fun he => hnota (he ▸ hx))) hra,
          routeOK_congr (fun x hx => hupd x (fun he => hnotb (he ▸ hx))) hrb,
          routeOK_congr (fun x hx => hupd x (fun he => hnotc (he ▸ hx))) hrc,
          ihd hrd hndd htp⟩
        · intro x hx
          rw [hupd x (fun he => hnota (he ▸ hx))]
          exact hr1 x hx
        · intro x hx
          rw [hupd x (fun he => hnotb (he ▸ hx))]
          exact hr2 x hx
        · intro x hx
          rw [hupd x (fun he => hnotc (he ▸ hx))]
          exact hr3 x hx
        · intro x hx
          by_cases hxo : x = o
          · subst hxo
            rw [hupdo, hq]
          · rw [hupd x hxo]
            exact hr4 x hx

/-- A route pair with low first bit means the x coordinate is not above the
center (ties go low). -/
theorem route_le_fst {c ctr : Twof} {q2 : Bool} (h : route c ctr = (false, q2)) :
    c.1 ≤ ctr.1 :=
  not_lt.mp (of_decide_eq_false (congrArg Prod.fst h))

/-- A route pair with high first bit means the x coordinate is above the
center. -/
theorem route_lt_fst {c ctr : Twof} {q2 : Bool} (h : route c ctr = (true, q2)) :
    ctr.1 < c.1 :=
  of_decide_eq_true (congrArg Prod.fst h)

/-- A route pair with low second bit means the y coordinate is not above
the center. -/
theorem route_le_snd {c ctr : Twof} {q1 : Bool} (h : route c ctr = (q1, false)) :
    c.2 ≤ ctr.2 :=
  not_lt.mp (of_decide_eq_false (congrArg Prod.snd h))

/-- A route pair with high second bit means the y coordinate is above the
center. -/
theorem route_lt_snd {c ctr : Twof} {q1 : Bool} (h : route c ctr = (q1, true)) :
    ctr.2 < c.2 :=
  of_decide_eq_true (congrArg Prod.snd h)

/-- If the x gap between the query point and an object exceeds the radius,
the squared distance exceeds the squared radius. -/
theorem dist2_gt_x {pos px : Twof} {dist : ℚ} (hd : 0 ≤ dist)
    (h : dist < pos.1 - px.1 ∨ dist < px.1 - pos.1) :
    dist * dist < computeDist2 pos px := by
  have h2 : 0 ≤ (pos.2 - px.2) * (pos.2 - px.2) := mul_self_nonneg _
  unfold computeDist2
  rcases h with h | h
  · have h1 : dist * dist < (pos.1 - px.1) * (pos.1 - px.1) := mul_self_lt_mul_self hd h
    linarith
  · have h1 : dist * dist < (px.1 - pos.1) * (px.1 - pos.1) := mul_self_lt_mul_self hd h
    have he : (px.1 - pos.1) * (px.1 - pos.1) = (pos.1 - px.1) * (pos.1 - px.1) := by ring
    linarith

/-- If the y gap between the query point and an object exceeds the radius,
the squared distance exceeds the squared radius. -/
theorem dist2_gt_y {pos px : Twof} {dist : ℚ} (hd : 0 ≤ dist)
    (h : dist < pos.2 - px.2 ∨ dist < px.2 - pos.2) :
    dist * dist < computeDist2 pos px := by
  have h2 : 0 ≤ (pos.1 - px.1) * (pos.1 - px.1) := mul_self_nonneg _
  unfold computeDist2
  rcases h with h | h
  · have h1 : dist * dist < (pos.2 - px.2) * (pos.2 - px.2) := mul_self_lt_mul_self hd h
    linarith
  · have h1 : dist * dist < (px.2 - pos.2) * (px.2 - pos.2) := mul_self_lt_mul_self hd h
    have he : (px.2 - pos.2) * (px.2 - pos.2) = (pos.2 - px.2) * (pos.2 - px.2) := by ring
    linarith

/-- Membership in a possibly pruned sub-result. -/
theorem ite_nil_mem {g : Bool} {res : List Nat} {x : Nat} :
    x ∈ (if g then res else []) ↔ g = true ∧ x ∈ res := by
  cases g <;> simp

/-- A possibly pruned sub-result of a duplicate-free list is
duplicate-free. -/
theorem ite_nil_nodup {g : Bool} {res : List Nat} (h : res.Nodup) :
    (if g then res else []).Nodup := by
  cases g <;> simp [h]

/-- Correctness of findNearObjects on a subtree satisfying the routing
invariant: the result is duplicate-free and holds exactly the stored objects
whose squared distance to pos is at most dist * dist. -/
theorem findNear_spec (p : Nat → Twof) (pos : Twof) (dist : ℚ) (hd : 0 ≤ dist) :
    ∀ t : QT, routeOK p t → (collectObjects t).Nodup →
      (findNearObjects p pos dist t).Nodup ∧
      ∀ x, x ∈ findNearObjects p pos dist t ↔
        x ∈ collectObjects t ∧ computeDist2 pos (p x) ≤ dist * dist := by
  intro t
  induction t with
  | leaf d n c1 c2 ctr objs =>
      intro _ hnd
      constructor
      · exact List.Nodup.filter _ hnd
      · intro x
        show x ∈ objs.filter _ ↔ x ∈ objs ∧ _
        rw [List.mem_filter]
        simp [not_lt]
  | node d n c1 c2 ctr a b c dd objs iha ihb ihc ihd =>
      intro hr hnd
      obtain ⟨hr1, hr2, hr3, hr4, hra, hrb, hrc, hrd⟩ := hr
      have hnda : (collectObjects a).Nodup :=
        (hnd.of_append_left).of_append_left.of_append_left
      have hndb : (collectObjects b).Nodup :=
        ((hnd.of_append_left).of_append_left).of_append_right
      have hndc : (collectObjects c).Nodup := (hnd.of_append_left).of_append_right
      have hndd : (collectObjects dd).Nodup := hnd.of_append_right
      obtain ⟨hda, hma⟩ := iha hra hnda
      obtain ⟨hdb, hmb⟩ := ihb hrb hndb
      obtain ⟨hdc, hmc⟩ := ihc hrc hndc
      obtain ⟨hdd2, hmd⟩ := ihd hrd hndd
      have heq : findNearObjects p pos dist (.node d n c1 c2 ctr a b c dd objs) =
          (if (!decide (pos.1 - dist > ctr.1) && !decide (pos.2 - dist > ctr.2) : Bool) then
            findNearObjects p pos dist a else []) ++
          (if (!decide (pos.1 - dist > ctr.1) && !decide (pos.2 + dist < ctr.2) : Bool) then
            findNearObjects p pos dist b else []) ++
          (if (!decide (pos.1 + dist < ctr.1) && !decide (pos.2 - dist > ctr.2) : Bool) then
            findNearObjects p pos dist c else []) ++
          (if (!decide (pos.1 + dist < ctr.1) && !decide (pos.2 + dist < ctr.2) : Bool) then
            findNearObjects p pos dist dd else []) := rfl
      have hc1 : ∀ x, x ∈ (if (!decide (pos.1 - dist > ctr.1) &&
          !decide (pos.2 - dist > ctr.2) : Bool) then findNearObjects p pos dist a else []) →
          x ∈ collectObjects a ∧ computeDist2 pos (p x) ≤ dist * dist :=
        fun x hx => (hma x).mp (ite_nil_mem.mp hx).2
      have hc2 : ∀ x, x ∈ (if (!decide (pos.1 - dist > ctr.1) &&
          !decide (pos.2 + dist < ctr.2) : Bool) then findNearObjects p pos dist b else []) →
          x ∈ collectObjects b ∧ computeDist2 pos (p x) ≤ dist * dist :=
        fun x hx => (hmb x).mp (ite_nil_mem.mp hx).2
      have hc3 : ∀ x, x ∈ (if (!decide (pos.1 + dist < ctr.1) &&
          !decide (pos.2 - dist > ctr.2) : Bool) then findNearObjects p pos dist c else []) →
          x ∈ collectObjects c ∧ computeDist2 pos (p x) ≤ dist * dist :=
        fun x hx => (hmc x).mp (ite_nil_mem.mp hx).2
      have hc4 : ∀ x, x ∈ (if (!decide (pos.1 + dist < ctr.1) &&
          !decide (pos.2 + dist < ctr.2) : Bool) then findNearObjects p pos dist dd else []) →
          x ∈ collectObjects dd ∧ computeDist2 pos (p x) ≤ dist * dist :=
        fun x hx => (hmd x).mp (ite_nil_mem.mp hx).2
      constructor
      · rw [heq]
        rw [List.nodup_append, List.nodup_append, List.nodup_append]
        refine ⟨⟨⟨ite_nil_nodup hda, ite_nil_nodup hdb, ?_⟩, ite_nil_nodup hdc, ?_⟩,
          ite_nil_nodup hdd2, ?_⟩
        · intro x hx1 hx2
          have e1 := hr1 x (hc1 x hx1).1
          have e2 := hr2 x (hc2 x hx2).1
          rw [e1] at e2
          simp at e2
        · intro x hx1 hx2
          rcases List.mem_append.mp hx1 with h1 | h1
          · have e1 := hr1 x (hc1 x h1).1
            have e2 := hr3 x (hc3 x hx2).1
            rw [e1] at e2
            simp at e2
          · have e1 := hr2 x (hc2 x h1).1
            have e2 := hr3 x (hc3 x hx2).1
            rw [e1] at e2
            simp at e2
        · intro x hx1 hx2
          rcases List.mem_append.mp hx1 with h1 | h1
          · rcases List.mem_append.mp h1 with h2 | h2
            · have e1 := hr1 x (hc1 x h2).1
              have e2 := hr4 x (hc4 x hx2).1
              rw [e1] at e2
              simp at e2
            · have e1 := hr2 x (hc2 x h2).1
              have e2 := hr4 x (hc4 x hx2).1
              rw [e1] at e2
              simp at e2
          · have e1 := hr3 x (hc3 x h1).1
            have e2 := hr4 x (hc4 x hx2).1
            rw [e1] at e2
            simp at e2
      · intro x
        constructor
        · intro hx
          rw [heq] at hx
          rcases List.mem_append.mp hx with h1 | h1
          · rcases List.mem_append.mp h1 with h2 | h2
            · rcases List.mem_append.mp h2 with h3 | h3
              · exact ⟨by simp [collectObjects, (hc1 x h3).1], (hc1 x h3).2⟩
              · exact ⟨by simp [collectObjects, (hc2 x h3).1], (hc2 x h3).2⟩
            · exact ⟨by simp [collectObjects, (hc3 x h2).1], (hc3 x h2).2⟩
          · exact ⟨by simp [collectObjects, (hc4 x h1).1], (hc4 x h1).2⟩
        · rintro ⟨hxmem, hclose⟩
          have hxmem4 : x ∈ collectObjects a ∨ x ∈ collectObjects b ∨
              x ∈ collectObjects c ∨ x ∈ collectObjects dd := by
            simpa [collectObjects, or_assoc] using hxmem
          rw [heq]
          rcases hxmem4 with hm | hm | hm | hm
          · have hq := hr1 x hm
            have hx1 : (p x).1 ≤ ctr.1 := route_le_fst hq
            have hx2 : (p x).2 ≤ ctr.2 := route_le_snd hq
            have hgx : ¬ (pos.1 - dist > ctr.1) := by
              intro hgt
              exact absurd hclose (not_le.mpr (dist2_gt_x hd (Or.inl (by linarith))))
            have hgy : ¬ (pos.2 - dist > ctr.2) := by
              intro hgt
              exact absurd hclose (not_le.mpr (dist2_gt_y hd (Or.inl (by linarith))))
            have hg : (!decide (pos.1 - dist > ctr.1) && !decide (pos.2 - dist > ctr.2)) = true := by
              simp [hgx, hgy]
            refine List.mem_append.mpr (Or.inl ?_)
            refine List.mem_append.mpr (Or.inl ?_)
            refine List.mem_append.mpr (Or.inl ?_)
            exact ite_nil_mem.mpr ⟨hg, (hma x).mpr ⟨hm, hclose⟩⟩
          · have hq := hr2 x hm
            have hx1 : (p x).1 ≤ ctr.1 := route_le_fst hq
            have hx2 : ctr.2 < (p x).2 := route_lt_snd hq
            have hgx : ¬ (pos.1 - dist > ctr.1) := by
              intro hgt
              exact absurd hclose (not_le.mpr (dist2_gt_x hd (Or.inl (by linarith))))
            have hgy : ¬ (pos.2 + dist < ctr.2) := by
              intro hgt
              exact absurd hclose (not_le.mpr (dist2_gt_y hd (Or.inr (by linarith))))
            have hg : (!decide (pos.1 - dist > ctr.1) && !decide (pos.2 + dist < ctr.2)) = true := by
              simp [hgx, hgy]
            refine List.mem_append.mpr (Or.inl ?_)
            refine List.mem_append.mpr (Or.inl ?_)
            refine List.mem_append.mpr (Or.inr ?_)
            exact ite_nil_mem.mpr ⟨hg, (hmb x).mpr ⟨hm, hclose⟩⟩
          · have hq := hr3 x hm
            have hx1 : ctr.1 < (p x).1 := route_lt_fst hq
            have hx2 : (p x).2 ≤ ctr.2 := route_le_snd hq
            have hgx : ¬ (pos.1 + dist < ctr.1) := by
              intro hgt
              exact absurd hclose (not_le.mpr (dist2_gt_x hd (Or.inr (by linarith))))
            have hgy : ¬ (pos.2 - dist > ctr.2) := by
              intro hgt
              exact absurd hclose (not_le.mpr (dist2_gt_y hd (Or.inl (by linarith))))
            have hg : (!decide (pos.1 + dist < ctr.1) && !decide (pos.2 - dist > ctr.2)) = true := by
              simp [hgx, hgy]
            refine List.mem_append.mpr (Or.inl ?_)
            refine List.mem_append.mpr (Or.inr ?_)
            exact ite_nil_mem.mpr ⟨hg, (hmc x).mpr ⟨hm, hclose⟩⟩
          · have hq := hr4 x hm
            have hx1 : ctr.1 < (p x).1 := route_lt_fst hq
            have hx2 : ctr.2 < (p x).2 := route_lt_snd hq
            have hgx : ¬ (pos.1 + dist < ctr.1) := by
              intro hgt
              exact absurd hclose (not_le.mpr (dist2_gt_x hd (Or.inr (by linarith))))
            have hgy : ¬ (pos.2 + dist < ctr.2) := by
              intro hgt
              exact absurd hclose (not_le.mpr (dist2_gt_y hd (Or.inr (by linarith))))
            have hg : (!decide (pos.1 + dist < ctr.1) && !decide (pos.2 + dist < ctr.2)) = true := by
              simp [hgx, hgy]
            refine List.mem_append.mpr (Or.inr ?_)
            exact ite_nil_mem.mpr ⟨hg, (hmd x).mpr ⟨hm, hclose⟩⟩

/-- C1 claims FindNearObjects returns exactly the currently inserted
objects within the radius, with no omissions, after any Add/Remove/Move
sequence on distinct objects. The program violates this: destroyChildren
drops the object list of a childless root during expansion, so after Add of
object 1 at (1/2, 1/2) and Add of object 2 at the outside position (2, 2),
the query at (1/2, 1/2) with radius 1 omits the still-inserted object 1,
although its distance is 0. This theorem evaluates the embedding on that
failing trace. -/
theorem quadtree_C1 :
    AddOp (MakeQuadtree (0, 0) (1, 1)) (fun _ => ((0 : ℚ), (0 : ℚ))) 1 (1/2, 1/2) =
      some (QT.leaf 0 1 (0, 0) (1, 1) (1/2, 1/2) [1]) ∧
    AddOp (QT.leaf 0 1 (0, 0) (1, 1) (1/2, 1/2) [1])
        (updf (fun _ => ((0 : ℚ), (0 : ℚ))) 1 (1/2, 1/2)) 2 (2, 2) =
      some (QT.leaf 0 2 (0, 0) (13/5, 13/5) (1/2, 1/2) [2]) ∧
    computeDist2 (1/2, 1/2)
        (updf (updf (fun _ => ((0 : ℚ), (0 : ℚ))) 1 (1/2, 1/2)) 2 (2, 2) 1) ≤ 1 * 1 ∧
    1 ∉ findNearObjects (updf (updf (fun _ => ((0 : ℚ), (0 : ℚ))) 1 (1/2, 1/2)) 2 (2, 2))
        (1/2, 1/2) 1 (QT.leaf 0 2 (0, 0) (13/5, 13/5) (1/2, 1/2) [2]) := by
  with_unfolding_all decide

/-- C3 claims the count invariant - numObjects of a childless node equals
the length of its object list, numObjects of a node with children equals
the sum of the counts of its four children - holds in every state reachable
through the public operations. The program violates it: after Add of object
1 inside the box and Add of object 2 at the outside position (2, 2), the
root is a childless node with numObjects = 2 but a one-element object list,
because the expansion collapse dropped the list of the childless root while
keeping its count. -/
theorem quadtree_C3 :
    AddOp (MakeQuadtree (0, 0) (1, 1)) (fun _ => ((0 : ℚ), (0 : ℚ))) 1 (1/2, 1/2) =
      some (QT.leaf 0 1 (0, 0) (1, 1) (1/2, 1/2) [1]) ∧
    AddOp (QT.leaf 0 1 (0, 0) (1, 1) (1/2, 1/2) [1])
        (updf (fun _ => ((0 : ℚ), (0 : ℚ))) 1 (1/2, 1/2)) 2 (2, 2) =
      some (QT.leaf 0 2 (0, 0) (13/5, 13/5) (1/2, 1/2) [2]) ∧
    ¬ countOK (QT.leaf 0 2 (0, 0) (13/5, 13/5) (1/2, 1/2) [2]) := by
  refine ⟨by with_unfolding_all decide, by with_unfolding_all decide, ?_⟩
  intro h
  have h2 : (2 : Int) = (([2] : List Nat).length : Int) := h
  norm_num at h2

/-- C4: For every position c and center, the quadrant is chosen per axis as
the lower quadrant exactly when the coordinate is at most the center
coordinate (ties go to the lower quadrant), and the filing loop of
fileObject and the loop of testPresent select the same quadrant, so an
object is always found in the quadrant it was filed under. -/
theorem quadtree_C4 (c ctr : Twof) :
    fileTarget c ctr = presentTarget c ctr ∧
    ∃ q, fileTarget c ctr = some q ∧ (q.1 = false ↔ c.1 ≤ ctr.1) ∧
      (q.2 = false ↔ c.2 ≤ ctr.2) := by
  refine ⟨by rw [fileTarget_eq, presentTarget_eq], route c ctr, fileTarget_eq c ctr, ?_, ?_⟩
  · show decide (ctr.1 < c.1) = false ↔ c.1 ≤ ctr.1
    rcases le_or_lt c.1 ctr.1 with h | h
    · simp [not_lt.mpr h, h]
    · simp [h, not_le.mpr h]
  · show decide (ctr.2 < c.2) = false ↔ c.2 ≤ ctr.2
    rcases le_or_lt c.2 ctr.2 with h | h
    · simp [not_lt.mpr h, h]
    · simp [h, not_le.mpr h]

/-- C9: For every position, including positions outside the own box of the node,
the per-axis routing loops select exactly one child quadrant: fileObject
always files into exactly one child, and the failing branch of testPresent
(no quadrant selected) is unreachable. -/
theorem quadtree_C9 :
    (∀ c ctr : Twof, ∃ q, fileTarget c ctr = some q ∧ presentTarget c ctr = some q) ∧
    ∀ (t : QT) (o : Nat) (pos : Twof), (testPresent t o pos).isSome :=
  ⟨fun c ctr => ⟨route c ctr, fileTarget_eq c ctr, presentTarget_eq c ctr⟩,
    testPresent_isSome⟩

/-- C10: For every position already inside the bounding box componentwise,
checkExpand changes nothing: corners, child structure, object lists and
counts are left exactly as they were. -/
theorem quadtree_C10 {t : QT} {pos : Twof} (h1 : t.corner1.1 ≤ pos.1)
    (h2 : t.corner1.2 ≤ pos.2) (h3 : pos.1 ≤ t.corner2.1) (h4 : pos.2 ≤ t.corner2.2) :
    checkExpand t pos = t := by
  simp only [checkExpand]
  rw [if_neg]
  push_neg
  exact ⟨h1, h2, h3, h4⟩

/-- Witness for C10 at a concrete in-box position. -/
theorem quadtree_C10_witness : checkExpand (MakeQuadtree (0, 0) (1, 1)) (1/2, 1/2) =
    MakeQuadtree (0, 0) (1, 1) :=
  quadtree_C10 (by with_unfolding_all decide) (by with_unfolding_all decide)
    (by with_unfolding_all decide) (by with_unfolding_all decide)

/-- C2 claims that whenever an Add or Move position is outside the
bounding box, the whole tree is collapsed to a single root leaf holding
every currently tracked object - none lost, none duplicated - and every
previously inserted object is still present and findable after the
expansion. The program violates this on a childless root: collapsing the
one-object leaf root by the outside position (2, 2) yields an empty object
list while the count still claims one object, and the presence test for the
tracked object fails afterwards. This theorem evaluates the embedding at
that failing input. -/
theorem quadtree_C2 :
    (checkExpand (QT.leaf 0 1 (0, 0) (1, 1) (1/2, 1/2) [1]) (2, 2)).hasChildren = false ∧
    (checkExpand (QT.leaf 0 1 (0, 0) (1, 1) (1/2, 1/2) [1]) (2, 2)).objects = [] ∧
    (checkExpand (QT.leaf 0 1 (0, 0) (1, 1) (1/2, 1/2) [1]) (2, 2)).numObjects = 1 ∧
    testPresent (checkExpand (QT.leaf 0 1 (0, 0) (1, 1) (1/2, 1/2) [1]) (2, 2)) 1
      (1/2, 1/2) = some false := by
  with_unfolding_all decide

/-- Counterexample for C5 as stated: on the box (0,0)-(1,1) with trigger
point (-1, 0), the new lower corner computed by the code is -8/5, so the box is extended
past the point by 3/5, which is not the expansion factor 13/10 applied to
the box extent 1 on that axis. -/
theorem quadtree_C5_counterexample :
    (checkExpand (MakeQuadtree (0, 0) (1, 1)) (-1, 0)).corner1.1 = -(8/5 : ℚ) ∧
    ¬ ((-1 : ℚ) - (checkExpand (MakeQuadtree (0, 0) (1, 1)) (-1, 0)).corner1.1 =
      expandFactor * ((MakeQuadtree (0, 0) (1, 1)).corner2.1 -
        (MakeQuadtree (0, 0) (1, 1)).corner1.1)) := by
  with_unfolding_all decide

/-- C5 amended: for every axis and side, when the position lies outside
the current bounding box on that side, checkExpand computes the new corner
on that axis by applying the expansion factor 1.3 to the distance between
the triggering point and the opposite (far) corner of the current box on
that axis, and leaves that corner unchanged otherwise; whenever a side
triggers and the box corners are ordered, the new edge strictly overshoots
the triggering point rather than landing exactly on it. -/
theorem quadtree_C5 (t : QT) (tf : Twof) (hbox1 : t.corner1.1 ≤ t.corner2.1)
    (hbox2 : t.corner1.2 ≤ t.corner2.2) :
    ((checkExpand t tf).corner1.1 =
      if tf.1 < t.corner1.1 then t.corner2.1 - (t.corner2.1 - tf.1) * expandFactor
      else t.corner1.1) ∧
    ((checkExpand t tf).corner1.2 =
      if tf.2 < t.corner1.2 then t.corner2.2 - (t.corner2.2 - tf.2) * expandFactor
      else t.corner1.2) ∧
    ((checkExpand t tf).corner2.1 =
      if tf.1 > t.corner2.1 then t.corner1.1 + (tf.1 - t.corner1.1) * expandFactor
      else t.corner2.1) ∧
    ((checkExpand t tf).corner2.2 =
      if tf.2 > t.corner2.2 then t.corner1.2 + (tf.2 - t.corner1.2) * expandFactor
      else t.corner2.2) ∧
    (tf.1 < t.corner1.1 → (checkExpand t tf).corner1.1 < tf.1) ∧
    (tf.2 < t.corner1.2 → (checkExpand t tf).corner1.2 < tf.2) ∧
    (tf.1 > t.corner2.1 → tf.1 < (checkExpand t tf).corner2.1) ∧
    (tf.2 > t.corner2.2 → tf.2 < (checkExpand t tf).corner2.2) := by
  have hf : expandFactor = 13 / 10 := rfl
  by_cases hch : tf.1 < t.corner1.1 ∨ tf.2 < t.corner1.2 ∨ tf.1 > t.corner2.1 ∨
      tf.2 > t.corner2.2
  · have hcc1 : (checkExpand t tf).corner1 =
        ((if tf.1 < t.corner1.1 then t.corner2.1 - (t.corner2.1 - tf.1) * expandFactor
          else t.corner1.1),
         (if tf.2 < t.corner1.2 then t.corner2.2 - (t.corner2.2 - tf.2) * expandFactor
          else t.corner1.2)) := by
      simp only [checkExpand]
      rw [if_pos hch, setCorners_corner1]
    have hcc2 : (checkExpand t tf).corner2 =
        ((if tf.1 > t.corner2.1 then t.corner1.1 + (tf.1 - t.corner1.1) * expandFactor
          else t.corner2.1),
         (if tf.2 > t.corner2.2 then t.corner1.2 + (tf.2 - t.corner1.2) * expandFactor
          else t.corner2.2)) := by
      simp only [checkExpand]
      rw [if_pos hch, setCorners_corner2]
    refine ⟨by rw [hcc1], by rw [hcc1], by rw [hcc2], by rw [hcc2], ?_, ?_, ?_, ?_⟩
    · intro hs
      rw [hcc1]
      show (if tf.1 < t.corner1.1 then t.corner2.1 - (t.corner2.1 - tf.1) * expandFactor
        else t.corner1.1) < tf.1
      rw [if_pos hs, hf]
      linarith
    · intro hs
      rw [hcc1]
      show (if tf.2 < t.corner1.2 then t.corner2.2 - (t.corner2.2 - tf.2) * expandFactor
        else t.corner1.2) < tf.2
      rw [if_pos hs, hf]
      linarith
    · intro hs
      rw [hcc2]
      show tf.1 < (if tf.1 > t.corner2.1 then
        t.corner1.1 + (tf.1 - t.corner1.1) * expandFactor else t.corner2.1)
      rw [if_pos hs, hf]
      linarith
    · intro hs
      rw [hcc2]
      show tf.2 < (if tf.2 > t.corner2.2 then
        t.corner1.2 + (tf.2 - t.corner1.2) * expandFactor else t.corner2.2)
      rw [if_pos hs, hf]
      linarith
  · have hne : checkExpand t tf = t := by
      simp only [checkExpand]
      rw [if_neg hch]
    push_neg at hch
    obtain ⟨g1, g2, g3, g4⟩ := hch
    rw [hne]
    refine ⟨?_, ?_, ?_, ?_, ?_, ?_, ?_, ?_⟩
    · rw [if_neg (not_lt.mpr g1)]
    · rw [if_neg (not_lt.mpr g2)]
    · rw [if_neg (not_lt.mpr g3)]
    · rw [if_neg (not_lt.mpr g4)]
    · intro hs
      exact absurd hs (not_lt.mpr g1)
    · intro hs
      exact absurd hs (not_lt.mpr g2)
    · intro hs
      exact absurd hs (not_lt.mpr g3)
    · intro hs
      exact absurd hs (not_lt.mpr g4)

/-- Witness for C5: each of the four sides strictly overshoots at a
concrete outside point, and a single-axis trigger applies the far-corner
formula on the triggering axis while leaving the unchanged corner given by
the else-branch. -/
theorem quadtree_C5_witness :
    (checkExpand (MakeQuadtree (0, 0) (1, 1)) (-1, 3)).corner1.1 < (-1 : ℚ) ∧
    ((3 : ℚ) < (checkExpand (MakeQuadtree (0, 0) (1, 1)) (-1, 3)).corner2.2) ∧
    (checkExpand (MakeQuadtree (0, 0) (1, 1)) (2, -1)).corner1.2 < (-1 : ℚ) ∧
    ((2 : ℚ) < (checkExpand (MakeQuadtree (0, 0) (1, 1)) (2, -1)).corner2.1) ∧
    ((checkExpand (MakeQuadtree (0, 0) (1, 1)) (1/2, 3)).corner1.1 =
      if ((1/2 : ℚ), (3 : ℚ)).1 < (MakeQuadtree (0, 0) (1, 1)).corner1.1 then
        (MakeQuadtree (0, 0) (1, 1)).corner2.1 -
          ((MakeQuadtree (0, 0) (1, 1)).corner2.1 - ((1/2 : ℚ), (3 : ℚ)).1) * expandFactor
      else (MakeQuadtree (0, 0) (1, 1)).corner1.1) ∧
    ((checkExpand (MakeQuadtree (0, 0) (1, 1)) (1/2, 3)).corner2.2 =
      if ((1/2 : ℚ), (3 : ℚ)).2 > (MakeQuadtree (0, 0) (1, 1)).corner2.2 then
        (MakeQuadtree (0, 0) (1, 1)).corner1.2 +
          (((1/2 : ℚ), (3 : ℚ)).2 - (MakeQuadtree (0, 0) (1, 1)).corner1.2) * expandFactor
      else (MakeQuadtree (0, 0) (1, 1)).corner2.2) :=
  ⟨(quadtree_C5 (MakeQuadtree (0, 0) (1, 1)) (-1, 3) (by with_unfolding_all decide)
      (by with_unfolding_all decide)).2.2.2.2.1 (by with_unfolding_all decide),
   (quadtree_C5 (MakeQuadtree (0, 0) (1, 1)) (-1, 3) (by with_unfolding_all decide)
      (by with_unfolding_all decide)).2.2.2.2.2.2.2 (by with_unfolding_all decide),
   (quadtree_C5 (MakeQuadtree (0, 0) (1, 1)) (2, -1) (by with_unfolding_all decide)
      (by with_unfolding_all decide)).2.2.2.2.2.1 (by with_unfolding_all decide),
   (quadtree_C5 (MakeQuadtree (0, 0) (1, 1)) (2, -1) (by with_unfolding_all decide)
      (by with_unfolding_all decide)).2.2.2.2.2.2.1 (by with_unfolding_all decide),
   (quadtree_C5 (MakeQuadtree (0, 0) (1, 1)) (1/2, 3) (by with_unfolding_all decide)
      (by with_unfolding_all decide)).1,
   (quadtree_C5 (MakeQuadtree (0, 0) (1, 1)) (1/2, 3) (by with_unfolding_all decide)
      (by with_unfolding_all decide)).2.2.2.1⟩

/-- Adding into a leaf that does not split appends the object. -/
theorem addF_leaf_no_split (p : Nat → Twof) (fuel d : Nat) (n : Int) (e1 e2 ctr : Twof)
    (objs : List Nat) (o : Nat)
    (h : ¬ (d < maxQuadtreeDepth ∧ n + 1 > maxObjectsPerQuadtree)) :
    addF p (fuel + 1) (.leaf d n e1 e2 ctr objs) o =
      some (.leaf d (n + 1) e1 e2 ctr (objs ++ [o])) := by
  simp only [addF]
  rw [if_neg h]

/-- Removing the only object of a one-object leaf empties it. -/
theorem removeQ_singleton (p : Nat → Twof) (d : Nat) (e1 e2 ctr : Twof) (o : Nat) :
    removeQ p (.leaf d 1 e1 e2 ctr [o]) o = some (.leaf d 0 e1 e2 ctr []) := by
  have hsw : swapRemove [o] o = some [] := by
    simp [swapRemove, findIdx]
  simp only [removeQ, hsw]
  norm_num

/-- C6: A quadtree freshly created by MakeQuadtree satisfies Empty; and
after Add of a single object followed by Remove of that same object, Empty
is true again: the count is zero, the root has no children, and the root
object list is empty. -/
theorem quadtree_C6 (c1 c2 : Twof) (p : Nat → Twof) (o : Nat) (c : Twof) :
    (MakeQuadtree c1 c2).Empty = true ∧
    ∃ t1 t2, AddOp (MakeQuadtree c1 c2) p o c = some t1 ∧
      removeQ (updf p o c) t1 o = some t2 ∧ t2.Empty = true := by
  refine ⟨rfl, ?_⟩
  obtain ⟨e1, e2, hce⟩ : ∃ e1 e2, checkExpand (MakeQuadtree c1 c2) c =
      .leaf 0 0 e1 e2 ((c1.1 + c2.1) / 2, (c1.2 + c2.2) / 2) [] := by
    simp only [checkExpand]
    split
    · exact ⟨_, _, rfl⟩
    · exact ⟨c1, c2, rfl⟩
  refine ⟨.leaf 0 1 e1 e2 ((c1.1 + c2.1) / 2, (c1.2 + c2.2) / 2) [o],
    .leaf 0 0 e1 e2 ((c1.1 + c2.1) / 2, (c1.2 + c2.2) / 2) [], ?_, ?_, rfl⟩
  · show addF (updf p o c) rootFuel (checkExpand (MakeQuadtree c1 c2) c) o = _
    rw [hce, show rootFuel = 8 + 1 from rfl,
      addF_leaf_no_split (updf p o c) 8 0 0 e1 e2 _ [] o
        (by norm_num [maxObjectsPerQuadtree])]
    norm_num
  · exact removeQ_singleton (updf p o c) 0 e1 e2 _ o

/-- C7 claims Remove panics exactly when the count would go negative or
the object is missing from the leaf its recorded position routes to, so
removing a currently present object never panics. The program violates the
never-panics part: after Add of object 1 at (1/2, 1/2) and Add of object 2
at the outside position (2, 2), object 1 is still inserted and was never
removed, yet Remove of object 1 panics, because the expansion collapse
dropped it from the leaf list that its recorded position routes to. -/
theorem quadtree_C7 :
    AddOp (MakeQuadtree (0, 0) (1, 1)) (fun _ => ((0 : ℚ), (0 : ℚ))) 1 (1/2, 1/2) =
      some (QT.leaf 0 1 (0, 0) (1, 1) (1/2, 1/2) [1]) ∧
    AddOp (QT.leaf 0 1 (0, 0) (1, 1) (1/2, 1/2) [1])
        (updf (fun _ => ((0 : ℚ), (0 : ℚ))) 1 (1/2, 1/2)) 2 (2, 2) =
      some (QT.leaf 0 2 (0, 0) (13/5, 13/5) (1/2, 1/2) [2]) ∧
    removeQ (updf (updf (fun _ => ((0 : ℚ), (0 : ℚ))) 1 (1/2, 1/2)) 2 (2, 2))
      (QT.leaf 0 2 (0, 0) (13/5, 13/5) (1/2, 1/2) [2]) 1 = none := by
  with_unfolding_all decide

/-- C8: Starting from the box (0,0)-(1,1), after inserting objects 0..9 at
positions (0.0, 0), (0.1, 0), ..., (0.9, 0), the query at (0.5, 0.1) with
radius 0.2 returns exactly the 3 objects at x = 0.4, 0.5 and 0.6. -/
theorem quadtree_C8 :
    ((List.range 10).foldl
      (fun acc i => acc.bind
        (fun tt => AddOp tt (fun j => ((j : ℚ) / 10, 0)) i ((i : ℚ) / 10, 0)))
      (some (MakeQuadtree (0, 0) (1, 1)))).map
        (findNearObjects (fun j => ((j : ℚ) / 10, 0)) (1/2, 1/10) (1/5)) =
      some [4, 5, 6] := by
  with_unfolding_all decide
